import Mathlib

/-!
Verification development for the ESG-Analytics dashboard repository.

The repository's analytics modules share one pipeline: coerce raw spreadsheet
cells to numbers (parseNumeric), locate the header row of an uploaded grid,
filter blank rows, map raw columns to canonical fields, and fold the records
into insertion-ordered group summaries (JS Map based group-and-sum).

JavaScript values are modelled by JsValue; JS numbers are modelled as exact
rationals.  JS Map insertion-order semantics are modelled by association lists
updated in place.  JS Array.prototype.sort (stable since ES2019) is modelled by
List.insertionSort with a non-strict comparison, which produces the unique
stable sorted permutation.
-/

/-- A JavaScript value as it occurs in the analytics pipeline: a string, a
finite number (modelled as an exact rational), an infinite number (the
number type's Infinity and -Infinity, which parseFloat can produce), a
boolean, null, or undefined. -/
inductive JsValue where
  | str (s : String)
  | num (q : ℚ)
  | inf (neg : Bool)
  | bool (b : Bool)
  | null
  | undefined
deriving DecidableEq, Repr

/-- JS truthiness: empty string, 0, false, null and undefined are falsy;
infinite numbers are truthy. -/
def JsValue.truthy : JsValue → Bool
  | .str s => decide (s ≠ "")
  | .num q => decide (q ≠ 0)
  | .inf _ => true
  | .bool b => b
  | .null => false
  | .undefined => false

/-- The JS expression v || d restricted to JsValue operands. -/
def jsOr (v d : JsValue) : JsValue := if v.truthy then v else d

/-- The JS expression q || 0 on a number q (identity on rationals, since the
only falsy rational is 0 itself). -/
def jsOrZero (q : ℚ) : ℚ := if q ≠ 0 then q else 0

theorem jsOrZero_eq (q : ℚ) : jsOrZero q = q := by
  unfold jsOrZero; split <;> simp_all

/-! ### Model of JS parseFloat and the parseNumeric helpers

parseFloat is modelled per ECMAScript on optionally signed Infinity literals
and decimal literals: skip leading whitespace, consume a sign, then either
the keyword Infinity (yielding a signed infinity) or an integer part and an
optional fraction part, ignoring any trailing characters; the result is NaN
(here: none) when neither was consumed.  Exponent notation is not modelled:
a digit-free string has no exponent part, and the formatted strings treated
below exclude letters outside the Infinity keyword, so no statement in this
file depends on it. -/

/-- Whitespace characters recognised by JS trim and parseFloat (common set). -/
def jsWs (c : Char) : Bool :=
  c = ' ' || c = '\t' || c = '\n' || c = '\x0d' || c = '\x0c' || c = '\x0b'

/-- The characters removed by the cleaning regex of Scope3Analytics
(val.replace of the comma and currency glyph class). -/
def currencyChar (c : Char) : Bool :=
  c = ',' || c = '₹' || c = '$' || c = '€' || c = '£' || c = '¥'

/-- String.prototype.trim on a character list. -/
def trimChars (l : List Char) : List Char :=
  (((l.dropWhile jsWs).reverse).dropWhile jsWs).reverse

/-- Value of a decimal digit string, most significant first. -/
def digitsToNat (l : List Char) : ℕ :=
  l.foldl (fun a c => 10 * a + (c.toNat - 48)) 0

/-- The rational denoted by a sign, an integer digit part and a fraction
digit part. -/
def ratOfParts (neg : Bool) (ip fp : List Char) : ℚ :=
  let v : ℚ := (digitsToNat ip : ℚ) + (digitsToNat fp : ℚ) / (10 : ℚ) ^ fp.length
  if neg then -v else v

/-- Consuming the optional sign at the start of a numeric literal: the flag
is whether the literal is negative, the list is what follows the sign. -/
def pfSign : List Char → Bool × List Char
  | '-' :: r => (true, r)
  | '+' :: r => (false, r)
  | l => (false, l)

/-- The fraction digits: present only when a dot follows the integer part. -/
def pfFrac : List Char → List Char
  | '.' :: r => r.takeWhile Char.isDigit
  | _ => []

/-- A JS number as parseFloat produces it: finite (an exact rational) or a
signed infinity; NaN is the none of the surrounding Option. -/
inductive JsFloat where
  | fin (q : ℚ)
  | inf (neg : Bool)
deriving DecidableEq, Repr

/-- The Infinity keyword that parseFloat accepts after the optional sign. -/
def infinityLit : List Char := ['I', 'n', 'f', 'i', 'n', 'i', 't', 'y']

/-- Model of JS parseFloat on a character list (see the section comment for
its scope): skip whitespace, consume a sign, then the Infinity keyword or
integer digits and fraction digits, ignoring the rest; NaN when neither an
Infinity keyword nor a digit was read. -/
def jsParseFloat (l0 : List Char) : Option JsFloat :=
  let s := pfSign (l0.dropWhile jsWs)
  if s.2.take 8 = infinityLit then some (.inf s.1)
  else
    let ip := s.2.takeWhile Char.isDigit
    let fp := pfFrac (s.2.dropWhile Char.isDigit)
    if ip = [] ∧ fp = [] then none
    else some (.fin (ratOfParts s.1 ip fp))

/-- parseNumeric of Scope3Analytics (identical in FugitiveAnalytics): null,
undefined and the empty string coerce to 0; numbers — infinities included —
pass through; strings are cleaned of comma/currency glyphs, trimmed, and
parsed, the parse result (possibly an infinity, whose isNaN test is false)
returned and NaN replaced by 0; any other value coerces to 0. -/
def parseNumeric (val : JsValue) : JsFloat :=
  match val with
  | .null => .fin 0
  | .undefined => .fin 0
  | .num q => .fin q
  | .inf b => .inf b
  | .str s =>
      if s = "" then .fin 0
      else
        match jsParseFloat (trimChars (s.data.filter (fun c => !currencyChar c))) with
        | some f => f
        | none => .fin 0
  | .bool _ => .fin 0

/-- The JsValue carrying a parsed number (a finite or infinite JS number). -/
def numCell : JsFloat → JsValue
  | .fin q => .num q
  | .inf b => .inf b

/-- The rational carried by a finite JS number.  The aggregations below
apply it only to parseNumeric of an already finite number, on which
parseNumeric is the identity, so the infinite case never arises there. -/
def JsFloat.toRat : JsFloat → ℚ
  | .fin q => q
  | .inf _ => 0

theorem parseNumeric_num (q : ℚ) : parseNumeric (.num q) = .fin q := rfl

/-! ### JS Map based group-and-sum

Every analytics module folds its records through a JS Map: on a record whose
derived key is new, an initial summary is inserted (insertion order is
preserved by JS Map), otherwise the existing summary is updated in place.
Association lists model this exactly. -/

/-- One Map step: if the key is present, update its value in place, otherwise
append the updated initial value (models map.has / map.get / map.set). -/
def updateGroup {γ : Type} (k : JsValue) (i : γ) (u : γ → γ) :
    List (JsValue × γ) → List (JsValue × γ)
  | [] => [(k, u i)]
  | (k', a) :: rest =>
      if k' = k then (k', u a) :: rest else (k', a) :: updateGroup k i u rest

/-- Fold a record list through the Map (models the forEach aggregation loop):
key selects the grouping key, i the fresh summary, u the per-record update. -/
def groupFold {ρ γ : Type} (key : ρ → JsValue) (i : JsValue → γ) (u : ρ → γ → γ) :
    List ρ → List (JsValue × γ) → List (JsValue × γ)
  | [], m => m
  | r :: rs, m => groupFold key i u rs (updateGroup (key r) (i (key r)) (u r) m)

/-- The keys of an association-list Map, in insertion order. -/
def keysOf {γ : Type} (m : List (JsValue × γ)) : List JsValue := m.map (·.1)

/-- The distinct values of a key sequence in first-seen order. -/
def firstSeen (ks : List JsValue) : List JsValue :=
  ks.foldl (fun acc k => if k ∈ acc then acc else acc ++ [k]) []

/-- Lookup of a key's summary in the Map. -/
def getGroup {γ : Type} (k : JsValue) (m : List (JsValue × γ)) : Option γ :=
  (m.find? (fun p => p.1 = k)).map (·.2)

/-- A measure of a key's summary, 0 when the key is absent. -/
def measureOf {γ M : Type} [Zero M] (f : γ → M) (k : JsValue)
    (m : List (JsValue × γ)) : M :=
  (getGroup k m).elim 0 f

theorem updateGroup_keys {γ : Type} (k : JsValue) (i : γ) (u : γ → γ)
    (m : List (JsValue × γ)) :
    keysOf (updateGroup k i u m) =
      if k ∈ keysOf m then keysOf m else keysOf m ++ [k] := by
  induction m with
  | nil => simp [updateGroup, keysOf]
  | cons p rest ih =>
      obtain ⟨k', a⟩ := p
      by_cases hk : k' = k
      · subst hk
        simp [updateGroup, keysOf]
      · have hne : k ≠ k' := fun h => hk h.symm
        simp only [updateGroup, if_neg hk]
        show k' :: keysOf (updateGroup k i u rest) = _
        rw [ih]
        rw [show keysOf ((k', a) :: rest) = k' :: keysOf rest from rfl]
        by_cases hin : k ∈ keysOf rest
        · rw [if_pos hin, if_pos (show k ∈ k' :: keysOf rest from
            List.mem_cons.mpr (Or.inr hin))]
        · rw [if_neg hin, if_neg (show k ∉ k' :: keysOf rest by
            intro h
            rcases List.mem_cons.mp h with h | h
            · exact hne h
            · exact hin h)]
          exact (List.cons_append k' (keysOf rest) [k]).symm

theorem groupFold_keys {ρ γ : Type} (key : ρ → JsValue) (i : JsValue → γ)
    (u : ρ → γ → γ) (rs : List ρ) (m : List (JsValue × γ)) :
    keysOf (groupFold key i u rs m) =
      rs.foldl (fun acc r => if key r ∈ acc then acc else acc ++ [key r])
        (keysOf m) := by
  induction rs generalizing m with
  | nil => rfl
  | cons r rs ih =>
      simp only [groupFold, List.foldl_cons]
      rw [ih, updateGroup_keys]

theorem groupFold_keys_firstSeen {ρ γ : Type} (key : ρ → JsValue)
    (i : JsValue → γ) (u : ρ → γ → γ) (rs : List ρ) :
    keysOf (groupFold key i u rs []) = firstSeen (rs.map key) := by
  rw [groupFold_keys, firstSeen, List.foldl_map]
  rfl

theorem firstSeen_aux_nodup (ks : List JsValue) :
    ∀ acc : List JsValue, acc.Nodup →
      (ks.foldl (fun acc k => if k ∈ acc then acc else acc ++ [k]) acc).Nodup := by
  induction ks with
  | nil => intro acc h; simpa using h
  | cons k ks ih =>
      intro acc h
      simp only [List.foldl_cons]
      by_cases hk : k ∈ acc
      · rw [if_pos hk]; exact ih acc h
      · rw [if_neg hk]
        exact ih _ (by simp [List.nodup_append, h, hk])

theorem firstSeen_nodup (ks : List JsValue) : (firstSeen ks).Nodup :=
  firstSeen_aux_nodup ks [] List.nodup_nil

theorem updateGroup_measure_sum {γ M : Type} [AddCommMonoid M] (f : γ → M)
    (k : JsValue) (i : γ) (u : γ → γ) (c : M)
    (hu : ∀ g, f (u g) = f g + c) (hi : f i = 0) (m : List (JsValue × γ)) :
    ((updateGroup k i u m).map (fun p => f p.2)).sum =
      (m.map (fun p => f p.2)).sum + c := by
  induction m with
  | nil => simp [updateGroup, hu, hi]
  | cons p rest ih =>
      obtain ⟨k', a⟩ := p
      by_cases hk : k' = k
      · subst hk
        simp [updateGroup, hu, add_right_comm]
      · simp [updateGroup, hk, ih, add_assoc]

theorem groupFold_measure_sum {ρ γ M : Type} [AddCommMonoid M] (f : γ → M)
    (key : ρ → JsValue) (i : JsValue → γ) (u : ρ → γ → γ) (mu : ρ → M)
    (hu : ∀ r g, f (u r g) = f g + mu r) (hi : ∀ k, f (i k) = 0)
    (rs : List ρ) (m : List (JsValue × γ)) :
    ((groupFold key i u rs m).map (fun p => f p.2)).sum =
      (m.map (fun p => f p.2)).sum + (rs.map mu).sum := by
  induction rs generalizing m with
  | nil => simp [groupFold]
  | cons r rs ih =>
      simp only [groupFold, List.map_cons, List.sum_cons]
      rw [ih, updateGroup_measure_sum f (key r) (i (key r)) (u r) (mu r)
        (hu r) (hi (key r)) m]
      rw [add_assoc]

theorem updateGroup_measure_at {γ M : Type} [AddCommMonoid M] (f : γ → M)
    (k k' : JsValue) (i : γ) (u : γ → γ) (c : M)
    (hu : ∀ g, f (u g) = f g + c) (hi : f i = 0) (m : List (JsValue × γ)) :
    measureOf f k' (updateGroup k i u m) =
      measureOf f k' m + (if k = k' then c else 0) := by
  induction m with
  | nil =>
      by_cases hk : k = k'
      · subst hk; simp [updateGroup, measureOf, getGroup, hu, hi]
      · simp [updateGroup, measureOf, getGroup, hk, List.find?, Ne.symm hk]
  | cons p rest ih =>
      obtain ⟨k₀, a⟩ := p
      by_cases h0 : k₀ = k
      · subst h0
        by_cases hk : k₀ = k'
        · subst hk
          simp [updateGroup, measureOf, getGroup, List.find?, hu]
        · simp [updateGroup, measureOf, getGroup, List.find?, hk,
            if_neg (by exact hk)]
      · by_cases hk : k₀ = k'
        · subst hk
          have hne : k ≠ k₀ := fun h => h0 h.symm
          simp [updateGroup, h0, measureOf, getGroup, List.find?, hne]
        · simp only [updateGroup, if_neg h0]
          simp only [measureOf, getGroup, List.find?] at ih ⊢
          simp only [show (decide (k₀ = k') = false) by simpa using hk] at *
          exact ih

theorem groupFold_measure_at {ρ γ M : Type} [AddCommMonoid M] (f : γ → M)
    (key : ρ → JsValue) (i : JsValue → γ) (u : ρ → γ → γ) (mu : ρ → M)
    (hu : ∀ r g, f (u r g) = f g + mu r) (hi : ∀ k, f (i k) = 0)
    (k' : JsValue) (rs : List ρ) (m : List (JsValue × γ)) :
    measureOf f k' (groupFold key i u rs m) =
      measureOf f k' m + ((rs.filter (fun r => key r = k')).map mu).sum := by
  induction rs generalizing m with
  | nil => simp [groupFold]
  | cons r rs ih =>
      simp only [groupFold]
      rw [ih]
      rw [updateGroup_measure_at f (key r) k' (i (key r)) (u r) (mu r)
        (hu r) (hi (key r)) m]
      by_cases hk : key r = k'
      · simp [hk, List.filter_cons, add_assoc, add_comm, add_left_comm]
      · simp [hk, List.filter_cons]

theorem updateGroup_pair_inv {γ : Type} (P : JsValue → γ → Prop)
    (k : JsValue) (i : γ) (u : γ → γ) (m : List (JsValue × γ))
    (hm : ∀ p ∈ m, P p.1 p.2) (hi : P k i) (hu : ∀ k₀ g, P k₀ g → P k₀ (u g)) :
    ∀ p ∈ updateGroup k i u m, P p.1 p.2 := by
  induction m with
  | nil =>
      intro p hp
      simp only [updateGroup, List.mem_singleton] at hp
      subst hp; exact hu k i hi
  | cons q rest ih =>
      obtain ⟨k', a⟩ := q
      intro p hp
      by_cases hk : k' = k
      · subst hk
        simp only [updateGroup, if_pos rfl] at hp
        rcases List.mem_cons.mp hp with h | h
        · subst h; exact hu k' a (hm (k', a) (List.mem_cons_self _ _))
        · exact hm p (List.mem_cons_of_mem _ h)
      · simp only [updateGroup, if_neg hk] at hp
        rcases List.mem_cons.mp hp with h | h
        · subst h; exact hm (k', a) (List.mem_cons_self _ _)
        · exact ih (fun q hq => hm q (List.mem_cons_of_mem _ hq)) p h

theorem groupFold_pair_inv {ρ γ : Type} (P : JsValue → γ → Prop)
    (key : ρ → JsValue) (i : JsValue → γ) (u : ρ → γ → γ) (rs : List ρ)
    (m : List (JsValue × γ)) (hm : ∀ p ∈ m, P p.1 p.2)
    (hi : ∀ k, P k (i k)) (hu : ∀ r k g, P k g → P k (u r g)) :
    ∀ p ∈ groupFold key i u rs m, P p.1 p.2 := by
  induction rs generalizing m with
  | nil => exact hm
  | cons r rs ih =>
      exact ih _ (updateGroup_pair_inv P (key r) (i (key r)) (u r) m hm
        (hi (key r)) (fun k₀ g => hu r k₀ g))

theorem foldl_add_eq_sum {ρ : Type} (mu : ρ → ℚ) (l : List ρ) (x : ℚ) :
    l.foldl (fun a r => a + mu r) x = x + (l.map mu).sum := by
  induction l generalizing x with
  | nil => simp
  | cons r rs ih => simp [ih, add_assoc]

theorem sum_map_one {ρ : Type} (l : List ρ) :
    (l.map (fun _ => (1 : ℕ))).sum = l.length := by
  induction l with
  | nil => rfl
  | cons r rs ih => simp [ih, Nat.add_comm]

/-! ### WaterAnalytics (API-sourced records)

Numeric fields delivered by the backend are modelled as rationals; the
grouping fields keep their raw JS value since the code applies a truthiness
default to them. -/

structure WaterRecord where
  parameter : JsValue
  subCategory : JsValue
  plant : JsValue
  month : JsValue
  quantity : ℚ
  value : ℚ
deriving DecidableEq, Repr

/-- One summary of the parameterMap of WaterAnalytics. -/
structure WaterGroup where
  parameter : JsValue
  totalQuantity : ℚ
  totalValue : ℚ
  count : ℕ
deriving DecidableEq, Repr

/-- The grouping key of the parameterMap: item.parameter || 'Unknown'. -/
def waterKey (item : WaterRecord) : JsValue := jsOr item.parameter (.str "Unknown")

/-- The parameterMap fold of WaterAnalytics, as an insertion-ordered Map. -/
def waterParameterMap (waterData : List WaterRecord) : List (JsValue × WaterGroup) :=
  groupFold waterKey (fun param => ⟨param, 0, 0, 0⟩)
    (fun item group =>
      { group with
        totalQuantity := group.totalQuantity + jsOrZero item.quantity
        totalValue := group.totalValue + jsOrZero item.value
        count := group.count + 1 })
    waterData []

/-- byParameter of WaterAnalytics: Array.from(parameterMap.values()). -/
def waterByParameter (waterData : List WaterRecord) : List WaterGroup :=
  (waterParameterMap waterData).map (·.2)

/-- totalQuantity of WaterAnalytics: waterData.reduce of quantity || 0. -/
def waterTotalQuantity (waterData : List WaterRecord) : ℚ :=
  waterData.foldl (fun sum item => sum + jsOrZero item.quantity) 0

/-- totalValue of WaterAnalytics: waterData.reduce of value || 0. -/
def waterTotalValue (waterData : List WaterRecord) : ℚ :=
  waterData.foldl (fun sum item => sum + jsOrZero item.value) 0

/-! ### Scope3Analytics aggregation

The analytics useMemo runs one forEach over the data that simultaneously
feeds mapSub, mapYear, mapDept and the running totals; the fold state below
carries all four, exactly as the single pass does. -/

structure Scope3Record where
  subCategory : JsValue
  financialYear : JsValue
  department : JsValue
  totalQuantity : ℚ
  totalEFFuel : ℚ
  totalValue : ℚ
deriving DecidableEq, Repr

/-- One entry of mapSub (and, reusing the shape, mapYear and mapDept carry
the same three running totals keyed differently). -/
structure Scope3Group where
  key : JsValue
  totalQuantity : ℚ
  totalEFFuel : ℚ
  totalValue : ℚ
deriving DecidableEq, Repr

structure Scope3Totals where
  totalQuantity : ℚ
  totalEFFuel : ℚ
  totalValue : ℚ
deriving DecidableEq, Repr

structure Scope3State where
  mapSub : List (JsValue × Scope3Group)
  mapYear : List (JsValue × Scope3Group)
  mapDept : List (JsValue × Scope3Group)
  totals : Scope3Totals
deriving DecidableEq, Repr

/-- Adding one record's measures to a group entry (the three += lines). -/
def scope3Add (d : Scope3Record) (g : Scope3Group) : Scope3Group :=
  { g with
    totalQuantity := g.totalQuantity + jsOrZero d.totalQuantity
    totalEFFuel := g.totalEFFuel + jsOrZero d.totalEFFuel
    totalValue := g.totalValue + jsOrZero d.totalValue }

/-- The body of the forEach of the Scope3 analytics pass. -/
def scope3Step (st : Scope3State) (d : Scope3Record) : Scope3State :=
  let cat := jsOr d.subCategory (.str "Unknown")
  let year := jsOr d.financialYear (.str "NA")
  let dept := jsOr d.department (.str "NA")
  { mapSub := updateGroup cat ⟨cat, 0, 0, 0⟩ (scope3Add d) st.mapSub
    mapYear := updateGroup year ⟨year, 0, 0, 0⟩ (scope3Add d) st.mapYear
    mapDept := updateGroup dept ⟨dept, 0, 0, 0⟩ (scope3Add d) st.mapDept
    totals :=
      { totalQuantity := st.totals.totalQuantity + jsOrZero d.totalQuantity
        totalEFFuel := st.totals.totalEFFuel + jsOrZero d.totalEFFuel
        totalValue := st.totals.totalValue + jsOrZero d.totalValue } }

/-- The single analytics pass of Scope3Analytics. -/
def scope3Pass (data : List Scope3Record) : Scope3State :=
  data.foldl scope3Step ⟨[], [], [], ⟨0, 0, 0⟩⟩

/-- The grouping key of mapSub: d.subCategory || 'Unknown'. -/
def scope3SubKey (d : Scope3Record) : JsValue := jsOr d.subCategory (.str "Unknown")

/-- bySubCategory of Scope3Analytics: Array.from(mapSub.values()). -/
def scope3BySubCategory (data : List Scope3Record) : List Scope3Group :=
  (scope3Pass data).mapSub.map (·.2)

/-- The running totals of the Scope3 analytics pass. -/
def scope3Totals (data : List Scope3Record) : Scope3Totals :=
  (scope3Pass data).totals

/-- The order underlying sort((a, b) => b.measure - a.measure): non-strict
descending comparison on the chosen measure.  JS sort is stable, and a stable
sort for a total preorder has a unique result, so insertionSort with this
relation is that result. -/
def byDesc {α : Type} (f : α → ℚ) (a b : α) : Prop := f b ≤ f a

instance {α : Type} (f : α → ℚ) : DecidableRel (byDesc f) := fun a b =>
  inferInstanceAs (Decidable (f b ≤ f a))

instance {α : Type} (f : α → ℚ) : IsTotal α (byDesc f) :=
  ⟨fun a b => le_total (f b) (f a)⟩

instance {α : Type} (f : α → ℚ) : IsTrans α (byDesc f) :=
  ⟨fun _ _ _ hab hbc => le_trans hbc hab⟩

/-- topContributors of Scope3Analytics: stable-sort mapSub's values
descending by totalValue and slice(0, 5). -/
def scope3TopContributors (data : List Scope3Record) : List Scope3Group :=
  (List.insertionSort (byDesc Scope3Group.totalValue) (scope3BySubCategory data)).take 5

/-! ### FugitiveAnalytics aggregate helper -/

structure FugitiveRecord where
  type : JsValue
  «attribute» : JsValue
  parameter : JsValue
  subCategory : JsValue
  month : JsValue
  financialYear : JsValue
  quantity : ℚ
  convFactor : ℚ
  value : ℚ
  rIntensity : ℚ
  pppIntensity : ℚ
deriving DecidableEq, Repr

/-- The accumulator of the aggregate helper of FugitiveAnalytics. -/
structure FugitiveAcc where
  category : JsValue
  totalQuantity : ℚ
  totalValue : ℚ
  convFactorSum : ℚ
  rIntensitySum : ℚ
  pppIntensitySum : ℚ
  count : ℕ
deriving DecidableEq, Repr

/-- One output row of the aggregate helper. -/
structure FugitiveOut where
  category : JsValue
  totalQuantity : ℚ
  totalValue : ℚ
  avgConvFactor : ℚ
  avgRIntensity : ℚ
  avgPPPIntensity : ℚ
deriving DecidableEq, Repr

/-- The Map fold inside aggregate of FugitiveAnalytics, for a dynamic field
selector (d[key] is modelled by the selector function). -/
def fugitiveMap (field : FugitiveRecord → JsValue) (data : List FugitiveRecord) :
    List (JsValue × FugitiveAcc) :=
  groupFold (fun d => jsOr (field d) (.str "Unknown"))
    (fun cat => ⟨cat, 0, 0, 0, 0, 0, 0⟩)
    (fun d agg =>
      { agg with
        totalQuantity := agg.totalQuantity + jsOrZero d.quantity
        totalValue := agg.totalValue + jsOrZero d.value
        convFactorSum := agg.convFactorSum + jsOrZero d.convFactor
        rIntensitySum := agg.rIntensitySum + jsOrZero d.rIntensity
        pppIntensitySum := agg.pppIntensitySum + jsOrZero d.pppIntensity
        count := agg.count + 1 })
    data []

/-- aggregate of FugitiveAnalytics: fold the Map, then emit each value with
its averages (count-guarded sum / count). -/
def fugitiveAggregate (field : FugitiveRecord → JsValue)
    (data : List FugitiveRecord) : List FugitiveOut :=
  (fugitiveMap field data).map (fun p =>
    { category := p.2.category
      totalQuantity := p.2.totalQuantity
      totalValue := p.2.totalValue
      avgConvFactor := if p.2.count ≠ 0 then p.2.convFactorSum / p.2.count else 0
      avgRIntensity := if p.2.count ≠ 0 then p.2.rIntensitySum / p.2.count else 0
      avgPPPIntensity := if p.2.count ≠ 0 then p.2.pppIntensitySum / p.2.count else 0 })

/-! ### FossilFuelAnalytics byType (API-sourced) -/

structure FossilFuelRecord where
  type : JsValue
  department : JsValue
  plant : JsValue
  quantity : ℚ
  convFactor : ℚ
  value : ℚ
deriving DecidableEq, Repr

/-- One entry of the typeMap of FossilFuelAnalytics. -/
structure FossilTypeAcc where
  type : JsValue
  totalQty : ℚ
  totalValue : ℚ
  avgConv : ℚ
deriving DecidableEq, Repr

/-- One row of byType in the returned analytics object. -/
structure FossilTypeOut where
  type : JsValue
  totalQty : ℚ
  totalValue : ℚ
  avgConvFactor : ℚ
deriving DecidableEq, Repr

/-- The typeMap fold of FossilFuelAnalytics. -/
def fossilTypeMap (data : List FossilFuelRecord) : List (JsValue × FossilTypeAcc) :=
  groupFold (fun item => jsOr item.type (.str "Unknown"))
    (fun t => ⟨t, 0, 0, 0⟩)
    (fun item e =>
      { e with
        totalQty := e.totalQty + jsOrZero item.quantity
        totalValue := e.totalValue + jsOrZero item.value
        avgConv := e.avgConv + jsOrZero item.convFactor })
    data []

/-- byType of FossilFuelAnalytics: each type entry is emitted with
avgConvFactor computed as avgConv / data.length under a totalQty > 0 guard
(this is what the source does; data.length is the whole record count). -/
def fossilByType (data : List FossilFuelRecord) : List FossilTypeOut :=
  (fossilTypeMap data).map (fun p =>
    { type := p.2.type
      totalQty := p.2.totalQty
      totalValue := p.2.totalValue
      avgConvFactor :=
        if (0 : ℚ) < p.2.totalQty then p.2.avgConv / (data.length : ℚ) else 0 })

/-! ### ElectricityDataAnalytics aggregateBy -/

structure ElectricityRecord where
  plant : JsValue
  department : JsValue
  subCategory : JsValue
  type : JsValue
  month : JsValue
  quantity : ℚ
  convFactor : ℚ
deriving DecidableEq, Repr

/-- co2Emissions derived during enrichment: (quantity || 0) * (convFactor || 0). -/
def electricityCO2 (d : ElectricityRecord) : ℚ :=
  jsOrZero d.quantity * jsOrZero d.convFactor

/-- One group of aggregateBy of ElectricityDataAnalytics. -/
structure ElectricityGroup where
  category : JsValue
  totalQuantity : ℚ
  totalCO2 : ℚ
  count : ℕ
deriving DecidableEq, Repr

/-- aggregateBy of ElectricityDataAnalytics, as the insertion-ordered Map
(the returned array is the values of this Map in order). -/
def aggregateBy (field : ElectricityRecord → JsValue)
    (data : List ElectricityRecord) : List (JsValue × ElectricityGroup) :=
  groupFold (fun d => jsOr (field d) (.str "Unknown"))
    (fun k => ⟨k, 0, 0, 0⟩)
    (fun d agg =>
      { agg with
        totalQuantity := agg.totalQuantity + jsOrZero d.quantity
        totalCO2 := agg.totalCO2 + jsOrZero (electricityCO2 d)
        count := agg.count + 1 })
    data []

/-! ### DiversityDataAnalytics complaint dimension maps -/

structure DiversityRecord where
  dim1 : JsValue
  dim2 : JsValue
  month : JsValue
  financialYear : JsValue
  wagesFemales : ℚ
  wagesMales : ℚ
  totalComplaints : ℚ
  complaintsByFemale : ℚ
  poshUpheld : ℚ
  complianceInd : JsValue
deriving DecidableEq, Repr

/-- complaintsByDim1 of DiversityDataAnalytics: records whose dim1 is falsy
are skipped by the if (d.dim1) guard; otherwise the record's totalComplaints
is added under the raw dim1 key ((get(k) || 0) + value). -/
def complaintsByDim1 (data : List DiversityRecord) : List (JsValue × ℚ) :=
  data.foldl
    (fun m d =>
      if d.dim1.truthy then updateGroup d.dim1 0 (· + d.totalComplaints) m else m)
    []

/-! ### OpennessAnalytics dim1 breakdown (top 20) -/

structure OpennessRecord where
  dim1 : JsValue
  dim2 : JsValue
  month : JsValue
  financialYear : JsValue
  rptPurchases : ℚ
  rptSales : ℚ
deriving DecidableEq, Repr

/-- One row of dim1Breakdown: a category with its summed purchases value. -/
structure OpennessOut where
  category : JsValue
  value : ℚ
deriving DecidableEq, Repr

/-- The dim1Map fold of OpennessAnalytics: keyed by the raw d.dim1 (no
Unknown default here), summing parseNumeric(d.rptPurchases). -/
def opennessDim1Map (data : List OpennessRecord) : List (JsValue × ℚ) :=
  groupFold (fun d => d.dim1) (fun _ => (0 : ℚ))
    (fun d v => v + (parseNumeric (.num d.rptPurchases)).toRat) data []

/-- dim1Breakdown of OpennessAnalytics: map the entries to category/value
rows, stable-sort descending by value (sort((a, b) => b.value - a.value)),
slice(0, 20). -/
def opennessDim1Breakdown (data : List OpennessRecord) : List OpennessOut :=
  (List.insertionSort (byDesc OpennessOut.value)
    ((opennessDim1Map data).map (fun p => ⟨p.1, p.2⟩))).take 20

/-! ### File-sourced loading (handleFileUpload of Scope3Analytics and
DiversityDataAnalytics)

An uploaded workbook's first sheet arrives as a rectangular grid of raw
cells (sheet_to_json with header: 1).  The model keeps the pure part of
handleFileUpload: the try-block computation, whose thrown errors the catch
converts into the error upload status. -/

/-- fieldMapping of Scope3Analytics. -/
def scope3FieldMapping : List (String × String) :=
  [("Sr.No.", "srNo"), ("BRSR ID", "brsrId"), ("Financial Year", "financialYear"),
   ("Business Code", "businessCode"), ("Plant", "plant"), ("Department", "department"),
   ("Attribute", "attribute"), ("Parameter", "parameter"), ("Sub Category", "subCategory"),
   ("Total Quantity", "totalQuantity"), ("Total EFFuel", "totalEFFuel"),
   ("Total Value", "totalValue"), ("Doc Status", "docStatus"), ("Pending With", "pendingWith")]

/-- numericFields of Scope3Analytics. -/
def scope3NumericFields : List String := ["totalQuantity", "totalEFFuel", "totalValue"]

/-- fieldMapping of DiversityDataAnalytics; note both spellings of the
serial-number column are present. -/
def diversityFieldMapping : List (String × String) :=
  [("Sr.No.", "srNo"), ("Sr No", "srNoAlt"), ("Objective Code", "objectiveCode"),
   ("Financial Year", "financialYear"), ("Month", "month"), ("Attribute", "attribute"),
   ("Dim1", "dim1"), ("Dim2", "dim2"), ("Emission Source", "emissionSource"),
   ("Start Date", "startDate"), ("End Date", "endDate"),
   ("Wages Paid To Females", "wagesFemales"), ("Wages Paid To Male", "wagesMales"),
   ("Total Complaints", "totalComplaints"),
   ("Complaints By Female Employee", "complaintsByFemale"),
   ("Complaints on POSH upheld", "poshUpheld"),
   ("Actual Compliance Ind", "complianceInd")]

/-- numericFields of DiversityDataAnalytics. -/
def diversityNumericFields : List String :=
  ["wagesFemales", "wagesMales", "totalComplaints", "complaintsByFemale", "poshUpheld"]

/-- Object.keys of a field mapping. -/
def mappingKeys (fm : List (String × String)) : List String := fm.map (·.1)

/-- fieldMapping[h]: exact, case-sensitive lookup of a raw header label. -/
def assocFind (fm : List (String × String)) (h : String) : Option String :=
  (fm.find? (fun p => decide (p.1 = h))).map (·.2)

/-- row.includes(col) for a string label col: SameValueZero equality against
each cell, which for a string label is exact string equality. -/
def rowIncludes (row : List JsValue) (col : String) : Bool :=
  row.contains (.str col)

/-- Object.keys(fieldMapping).every(col => row.includes(col)). -/
def rowHasAllCols (keys : List String) (row : List JsValue) : Bool :=
  keys.all (fun col => rowIncludes row col)

/-- The header scan loop: for i in [0, min(10, rows.length)), take the first
row with all required columns. The index argument is the loop counter. -/
def findHeaderAux (keys : List String) : ℕ → List (List JsValue) → Option (ℕ × List JsValue)
  | _, [] => none
  | i, row :: rest =>
      if 10 ≤ i then none
      else if rowHasAllCols keys row then some (i, row)
      else findHeaderAux keys (i + 1) rest

/-- Header-row discovery, scan-for-match policy. -/
def findHeaderRow (keys : List String) (rows : List (List JsValue)) :
    Option (ℕ × List JsValue) :=
  findHeaderAux keys 0 rows

/-- The blank-row filter predicate: r.some(cell => cell !== null &&
cell !== undefined && cell !== ''). -/
def rowNonBlank (row : List JsValue) : Bool :=
  row.any (fun cell =>
    decide (cell ≠ .null) && decide (cell ≠ .undefined) && decide (cell ≠ .str ""))

/-- JS property assignment mapped[key] = v: overwrite in place, else append. -/
def setField : List (String × JsValue) → String → JsValue → List (String × JsValue)
  | [], k, v => [(k, v)]
  | (k', v') :: rest, k, v =>
      if k' = k then (k', v) :: rest else (k', v') :: setField rest k v

/-- JS String(v) / v.toString(), approximated for non-string values (number
formatting is irrelevant to every claim; strings pass through unchanged). -/
def jsToString : JsValue → String
  | .str s => s
  | .num q => toString q
  | .inf b => if b then "-Infinity" else "Infinity"
  | .bool b => if b then "true" else "false"
  | .null => "null"
  | .undefined => "undefined"

/-- val ? val.toString().trim() : '' for non-numeric mapped fields. -/
def stringCell (val : JsValue) : String :=
  if val.truthy then (jsToString val).trim else ""

/-- Mapping of one data row of Scope3Analytics: for each header cell that is
a truthy string with a fieldMapping entry, store the aligned cell under the
canonical key, parsed numerically for numericFields. -/
def scope3MapRow (headers row : List JsValue) : List (String × JsValue) :=
  headers.enum.foldl
    (fun mapped hi =>
      match hi.2 with
      | .str hs =>
          if hs ≠ "" then
            match assocFind scope3FieldMapping hs with
            | some key =>
                let val := row.getD hi.1 .undefined
                if key ∈ scope3NumericFields then
                  setField mapped key (numCell (parseNumeric val))
                else
                  setField mapped key (.str (stringCell val))
            | none => mapped
          else mapped
      | _ => mapped)
    []

/-- Mapping of one data row of DiversityDataAnalytics (no truthiness check on
the header cell; a non-string header cell is looked up by its string form). -/
def diversityMapRow (headers row : List JsValue) : List (String × JsValue) :=
  headers.enum.foldl
    (fun mapped hi =>
      match assocFind diversityFieldMapping (jsToString hi.2) with
      | some key =>
          let value := row.getD hi.1 .undefined
          if key ∈ diversityNumericFields then
            setField mapped key (numCell (parseNumeric value))
          else
            setField mapped key (.str (stringCell value))
      | none => mapped)
    []

/-- The try-block of handleFileUpload of Scope3Analytics on the decoded grid;
each throw becomes an error value which the catch turns into the error
status. -/
def processScope3Upload (rows : List (List JsValue)) :
    Except String (List (List (String × JsValue))) :=
  if rows.length < 2 then .error "Excel must contain header and data rows"
  else
    match findHeaderRow (mappingKeys scope3FieldMapping) rows with
    | none => .error "Header row not found with expected columns"
    | some ji =>
        let dataRows := rows.drop (ji.1 + 1)
        let processedData := (dataRows.filter rowNonBlank).map (scope3MapRow ji.2)
        if processedData.length = 0 then .error "No valid data found"
        else .ok processedData

/-- uploadStatus after handleFileUpload of Scope3Analytics resolves. -/
def scope3UploadStatus (rows : List (List JsValue)) : String :=
  match processScope3Upload rows with
  | .ok _ => "success"
  | .error _ => "error"

/-- The try-block of handleFileUpload of DiversityDataAnalytics. -/
def processDiversityUpload (rows : List (List JsValue)) :
    Except String (List (List (String × JsValue))) :=
  if rows.length < 2 then .error "Excel must contain headers and rows"
  else
    match findHeaderRow (mappingKeys diversityFieldMapping) rows with
    | none => .error "Header row not found with required fields"
    | some ji =>
        let dataRows := rows.drop (ji.1 + 1)
        let processed := (dataRows.filter rowNonBlank).map (diversityMapRow ji.2)
        if processed.length = 0 then .error "No valid data found"
        else .ok processed

/-- uploadStatus after handleFileUpload of DiversityDataAnalytics resolves. -/
def diversityUploadStatus (rows : List (List JsValue)) : String :=
  match processDiversityUpload rows with
  | .ok _ => "success"
  | .error _ => "error"

/-! ### Characterisation of the header scan loop -/

theorem findHeaderAux_none_iff (keys : List String) :
    ∀ (rows : List (List JsValue)) (i : ℕ),
      findHeaderAux keys i rows = none ↔
        ∀ j, j < min (10 - i) rows.length →
          rowHasAllCols keys (rows.getD j []) = false := by
  intro rows
  induction rows with
  | nil =>
      intro i
      constructor
      · intro _ j hj
        simp at hj
      · intro _
        rfl
  | cons row rest ih =>
      intro i
      by_cases h10 : 10 ≤ i
      · have hz : 10 - i = 0 := by omega
        constructor
        · intro _ j hj
          rw [hz] at hj
          simp at hj
        · intro _
          simp [findHeaderAux, h10]
      · by_cases hmatch : rowHasAllCols keys row = true
        · constructor
          · intro hnone
            exfalso
            simp [findHeaderAux, h10, hmatch] at hnone
          · intro hall
            exfalso
            have h0 : (0 : ℕ) < min (10 - i) (row :: rest).length := by
              rw [Nat.lt_min]
              constructor
              · omega
              · simp
            have := hall 0 h0
            rw [show (row :: rest).getD 0 [] = row from rfl, hmatch] at this
            simp at this
        · have hmatch' : rowHasAllCols keys row = false := by
            revert hmatch
            cases rowHasAllCols keys row <;> simp
          have heq : findHeaderAux keys i (row :: rest) =
              findHeaderAux keys (i + 1) rest := by
            simp [findHeaderAux, h10, hmatch']
          rw [heq, ih (i + 1)]
          constructor
          · intro h j hj
            match j with
            | 0 => exact hmatch'
            | Nat.succ t =>
                rw [show (row :: rest).getD (t + 1) [] = rest.getD t [] from rfl]
                apply h
                rw [Nat.lt_min] at hj ⊢
                simp at hj ⊢
                omega
          · intro h j hj
            have := h (j + 1) (by
              rw [Nat.lt_min] at hj ⊢
              simp at hj ⊢
              omega)
            exact this

theorem findHeaderAux_some (keys : List String) :
    ∀ (rows : List (List JsValue)) (i j : ℕ) (hdr : List JsValue),
      findHeaderAux keys i rows = some (j, hdr) →
      i ≤ j ∧ j < 10 ∧ j - i < rows.length ∧ rows.getD (j - i) [] = hdr ∧
        rowHasAllCols keys hdr = true ∧
        ∀ t, t < j - i → rowHasAllCols keys (rows.getD t []) = false := by
  intro rows
  induction rows with
  | nil =>
      intro i j hdr h
      simp [findHeaderAux] at h
  | cons row rest ih =>
      intro i j hdr h
      by_cases h10 : 10 ≤ i
      · simp [findHeaderAux, h10] at h
      · by_cases hmatch : rowHasAllCols keys row = true
        · rw [show findHeaderAux keys i (row :: rest) = some (i, row) by
            simp [findHeaderAux, h10, hmatch]] at h
          have hp := Option.some.inj h
          have hj : i = j := congrArg Prod.fst hp
          have hhdr : row = hdr := congrArg Prod.snd hp
          subst hj
          subst hhdr
          refine ⟨le_refl _, by omega, by simp, by simp, hmatch, ?_⟩
          intro t ht
          simp at ht
        · have hmatch' : rowHasAllCols keys row = false := by
            revert hmatch
            cases rowHasAllCols keys row <;> simp
          rw [show findHeaderAux keys i (row :: rest) =
              findHeaderAux keys (i + 1) rest by
            simp [findHeaderAux, h10, hmatch']] at h
          obtain ⟨h1, h2, h3, h4, h5, h6⟩ := ih (i + 1) j hdr h
          have hji : j - i = (j - (i + 1)) + 1 := by omega
          refine ⟨by omega, h2, by simp; omega, ?_, h5, ?_⟩
          · rw [hji]
            exact h4
          · intro t ht
            match t with
            | 0 => exact hmatch'
            | Nat.succ t =>
                rw [show (row :: rest).getD (t + 1) [] = rest.getD t [] from rfl]
                exact h6 t (by omega)

theorem findHeaderRow_none_iff (keys : List String) (rows : List (List JsValue)) :
    findHeaderRow keys rows = none ↔
      ∀ j, j < min 10 rows.length →
        rowHasAllCols keys (rows.getD j []) = false := by
  exact findHeaderAux_none_iff keys rows 0

theorem findHeaderRow_some (keys : List String) (rows : List (List JsValue))
    (j : ℕ) (hdr : List JsValue) (h : findHeaderRow keys rows = some (j, hdr)) :
    j < min 10 rows.length ∧ rows.getD j [] = hdr ∧
      rowHasAllCols keys hdr = true ∧
      ∀ t, t < j → rowHasAllCols keys (rows.getD t []) = false := by
  obtain ⟨_, h2, h3, h4, h5, h6⟩ := findHeaderAux_some keys rows 0 j hdr h
  rw [Nat.sub_zero] at h3 h4 h6
  refine ⟨?_, h4, h5, h6⟩
  rw [Nat.lt_min]
  exact ⟨h2, h3⟩

/-! ### Stability of the descending sort -/

theorem filter_orderedInsert_eq {α : Type} (f : α → ℚ) (q : ℚ) (a : α)
    (ha : f a = q) (l : List α) :
    (List.orderedInsert (byDesc f) a l).filter (fun x => decide (f x = q)) =
      a :: l.filter (fun x => decide (f x = q)) := by
  induction l with
  | nil => simp [List.orderedInsert, ha]
  | cons b bs ih =>
      by_cases hr : byDesc f a b
      · rw [List.orderedInsert, if_pos hr]
        simp [ha]
      · rw [List.orderedInsert, if_neg hr]
        have hb : f b ≠ q := by
          intro hbq
          exact hr (le_of_eq (by rw [hbq, ha]))
        rw [List.filter_cons, List.filter_cons]
        simp only [hb, decide_eq_true_eq, if_neg, decide_eq_false hb]
        exact ih

theorem filter_orderedInsert_ne {α : Type} (f : α → ℚ) (q : ℚ) (a : α)
    (ha : f a ≠ q) (l : List α) :
    (List.orderedInsert (byDesc f) a l).filter (fun x => decide (f x = q)) =
      l.filter (fun x => decide (f x = q)) := by
  induction l with
  | nil => simp [List.orderedInsert, ha]
  | cons b bs ih =>
      by_cases hr : byDesc f a b
      · rw [List.orderedInsert, if_pos hr]
        rw [List.filter_cons]
        simp [decide_eq_false ha]
      · rw [List.orderedInsert, if_neg hr]
        rw [List.filter_cons, List.filter_cons]
        by_cases hb : f b = q
        · simp [hb, ih]
        · simp [decide_eq_false hb, ih]

/-- Stability of the modelled JS sort: elements with any fixed value of the
sort measure appear in the sorted list exactly in their original order. -/
theorem filter_insertionSort {α : Type} (f : α → ℚ) (q : ℚ) (l : List α) :
    (List.insertionSort (byDesc f) l).filter (fun x => decide (f x = q)) =
      l.filter (fun x => decide (f x = q)) := by
  induction l with
  | nil => rfl
  | cons a l ih =>
      rw [List.insertionSort]
      by_cases ha : f a = q
      · rw [filter_orderedInsert_eq f q a ha, ih, List.filter_cons]
        simp [ha]
      · rw [filter_orderedInsert_ne f q a ha, ih, List.filter_cons]
        simp [decide_eq_false ha]

/-! ### List and character facts used to evaluate the numeric coercion on
currency-formatted strings -/

theorem takeWhile_append_all {p : Char → Bool} (xs ys : List Char)
    (h1 : ∀ x ∈ xs, p x = true)
    (h2 : ∀ c, ys.head? = some c → p c = false) :
    (xs ++ ys).takeWhile p = xs := by
  induction xs with
  | nil =>
      cases ys with
      | nil => rfl
      | cons c t =>
          simp [List.takeWhile_cons, h2 c rfl]
  | cons x xs ih =>
      have hx : p x = true := h1 x (List.mem_cons_self x xs)
      simp [List.takeWhile_cons, hx,
        ih (fun a ha => h1 a (List.mem_cons_of_mem x ha))]

theorem dropWhile_append_head {p : Char → Bool} (xs ys : List Char)
    (h : ∀ c, ys.head? = some c → p c = false) :
    (xs ++ ys).dropWhile p = xs.dropWhile p ++ ys := by
  induction xs with
  | nil =>
      cases ys with
      | nil => rfl
      | cons c t =>
          simp only [List.nil_append, List.dropWhile_cons, h c rfl]
          rfl
  | cons x xs ih =>
      simp only [List.cons_append, List.dropWhile_cons]
      by_cases hx : p x = true
      · simp only [hx, if_true]
        exact ih
      · rw [Bool.not_eq_true] at hx
        simp only [hx]
        rfl

theorem dropWhile_append_all {p : Char → Bool} (xs ys : List Char)
    (h1 : ∀ x ∈ xs, p x = true)
    (h2 : ∀ c, ys.head? = some c → p c = false) :
    (xs ++ ys).dropWhile p = ys := by
  rw [dropWhile_append_head xs ys h2, List.dropWhile_eq_nil_iff.mpr h1,
    List.nil_append]

theorem ws_not_digit {c : Char} (h : jsWs c = true) : c.isDigit = false := by
  simp only [jsWs, Bool.or_eq_true, decide_eq_true_eq] at h
  rcases h with ((((h | h) | h) | h) | h) | h <;> (subst h; decide)

theorem digit_not_ws {c : Char} (h : c.isDigit = true) : jsWs c = false := by
  cases hw : jsWs c
  · rfl
  · rw [ws_not_digit hw] at h
    exact absurd h (by simp)

theorem currency_not_digit {c : Char} (h : currencyChar c = true) :
    c.isDigit = false := by
  simp only [currencyChar, Bool.or_eq_true, decide_eq_true_eq] at h
  rcases h with ((((h | h) | h) | h) | h) | h <;> (subst h; decide)

theorem digit_not_currency {c : Char} (h : c.isDigit = true) :
    currencyChar c = false := by
  cases hw : currencyChar c
  · rfl
  · rw [currency_not_digit hw] at h
    exact absurd h (by simp)

theorem pfSign_neg (r : List Char) : pfSign ('-' :: r) = (true, r) := rfl

theorem pfSign_cons (c : Char) (r : List Char) (h1 : c ≠ '-') (h2 : c ≠ '+') :
    pfSign (c :: r) = (false, c :: r) := by
  unfold pfSign
  split
  · rename_i heq
    injection heq with hc _
    exact absurd hc h1
  · rename_i heq
    injection heq with hc _
    exact absurd hc h2
  · rfl

theorem pfFrac_dot (r : List Char) : pfFrac ('.' :: r) = r.takeWhile Char.isDigit := rfl

theorem pfFrac_other (l : List Char) (h : ∀ c, l.head? = some c → c ≠ '.') :
    pfFrac l = [] := by
  cases l with
  | nil => rfl
  | cons c r =>
      have hc := h c rfl
      unfold pfFrac
      split
      · rename_i r' heq
        injection heq with h1 _
        exact absurd h1 hc
      · rfl

theorem take_ne_infinityLit {c0 : Char} (r : List Char) (h : c0.isDigit = true) :
    (c0 :: r).take 8 ≠ infinityLit := by
  intro hEq
  rw [show (c0 :: r).take 8 = c0 :: r.take 7 from rfl] at hEq
  have hcI : c0 = 'I' := by
    injection hEq
  subst hcI
  exact absurd h (by decide)

theorem jsParseFloat_eq (l0 : List Char) :
    jsParseFloat l0 =
      if (pfSign (l0.dropWhile jsWs)).2.take 8 = infinityLit then
        some (.inf (pfSign (l0.dropWhile jsWs)).1)
      else if (pfSign (l0.dropWhile jsWs)).2.takeWhile Char.isDigit = [] ∧
          pfFrac ((pfSign (l0.dropWhile jsWs)).2.dropWhile Char.isDigit) = [] then none
      else some (.fin (ratOfParts (pfSign (l0.dropWhile jsWs)).1
        ((pfSign (l0.dropWhile jsWs)).2.takeWhile Char.isDigit)
        (pfFrac ((pfSign (l0.dropWhile jsWs)).2.dropWhile Char.isDigit)))) := rfl

theorem jsParseFloat_shape (neg : Bool) (ip fp tl : List Char)
    (hip : ip ≠ []) (hipd : ∀ c ∈ ip, c.isDigit = true)
    (hfpd : ∀ c ∈ fp, c.isDigit = true)
    (htl : ∀ c, tl.head? = some c → c.isDigit = false ∧ c ≠ '.') :
    jsParseFloat ((if neg then ['-'] else []) ++
      (ip ++ ((if fp = [] then [] else '.' :: fp) ++ tl))) =
      some (.fin (ratOfParts neg ip fp)) := by
  obtain ⟨c0, ip', rfl⟩ : ∃ c0 ip', ip = c0 :: ip' := by
    cases ip with
    | nil => exact absurd rfl hip
    | cons a b => exact ⟨a, b, rfl⟩
  have hc0 : c0.isDigit = true := hipd c0 (List.mem_cons_self _ _)
  have hhead : ∀ c, ((if fp = [] then [] else '.' :: fp) ++ tl).head? = some c →
      c.isDigit = false := by
    intro c hc
    by_cases hfp : fp = []
    · rw [if_pos hfp, List.nil_append] at hc
      exact (htl c hc).1
    · rw [if_neg hfp, List.cons_append] at hc
      have hcd : c = '.' := by
        simpa using hc.symm
      subst hcd
      decide
  have htake : ((c0 :: ip') ++ ((if fp = [] then [] else '.' :: fp) ++ tl)).takeWhile
      Char.isDigit = c0 :: ip' :=
    takeWhile_append_all _ _ hipd hhead
  have hdrop : ((c0 :: ip') ++ ((if fp = [] then [] else '.' :: fp) ++ tl)).dropWhile
      Char.isDigit = (if fp = [] then [] else '.' :: fp) ++ tl :=
    dropWhile_append_all _ _ hipd hhead
  have hfrac : pfFrac ((if fp = [] then [] else '.' :: fp) ++ tl) = fp := by
    by_cases hfp : fp = []
    · rw [if_pos hfp, List.nil_append, hfp]
      exact pfFrac_other tl (fun c hc => (htl c hc).2)
    · rw [if_neg hfp, List.cons_append, pfFrac_dot]
      exact takeWhile_append_all fp tl hfpd (fun c hc => (htl c hc).1)
  cases neg with
  | false =>
      have hfull : ((if false then ['-'] else []) ++
          ((c0 :: ip') ++ ((if fp = [] then [] else '.' :: fp) ++ tl))) =
          c0 :: (ip' ++ ((if fp = [] then [] else '.' :: fp) ++ tl)) := by
        simp
      rw [hfull]
      have hws : (c0 :: (ip' ++ ((if fp = [] then [] else '.' :: fp) ++ tl))).dropWhile
          jsWs = c0 :: (ip' ++ ((if fp = [] then [] else '.' :: fp) ++ tl)) := by
        rw [List.dropWhile_cons, digit_not_ws hc0]
        simp
      have hsign : pfSign (c0 :: (ip' ++ ((if fp = [] then [] else '.' :: fp) ++ tl))) =
          (false, c0 :: (ip' ++ ((if fp = [] then [] else '.' :: fp) ++ tl))) := by
        apply pfSign_cons
        · intro h
          subst h
          exact absurd hc0 (by decide)
        · intro h
          subst h
          exact absurd hc0 (by decide)
      rw [jsParseFloat_eq, hws, hsign]
      simp only []
      rw [if_neg (take_ne_infinityLit _ hc0)]
      rw [show (c0 :: (ip' ++ ((if fp = [] then [] else '.' :: fp) ++ tl))) =
        ((c0 :: ip') ++ ((if fp = [] then [] else '.' :: fp) ++ tl)) from rfl]
      rw [htake, hdrop, hfrac]
      rw [if_neg (by intro h; exact List.noConfusion h.1)]
  | true =>
      have hfull : ((if true then ['-'] else []) ++
          ((c0 :: ip') ++ ((if fp = [] then [] else '.' :: fp) ++ tl))) =
          '-' :: ((c0 :: ip') ++ ((if fp = [] then [] else '.' :: fp) ++ tl)) := by
        simp
      rw [hfull]
      have hws : ('-' :: ((c0 :: ip') ++ ((if fp = [] then [] else '.' :: fp) ++ tl))).dropWhile
          jsWs = '-' :: ((c0 :: ip') ++ ((if fp = [] then [] else '.' :: fp) ++ tl)) := by
        rw [List.dropWhile_cons]
        simp [jsWs]
      rw [jsParseFloat_eq, hws, pfSign_neg]
      simp only []
      rw [if_neg (show ((c0 :: ip') ++
          ((if fp = [] then [] else '.' :: fp) ++ tl)).take 8 ≠ infinityLit from
        take_ne_infinityLit _ hc0)]
      rw [htake, hdrop, hfrac]
      rw [if_neg (by intro h; exact List.noConfusion h.1)]

theorem mem_of_dropWhile {p : Char → Bool} {l : List Char} {c : Char}
    (h : c ∈ l.dropWhile p) : c ∈ l := by
  induction l with
  | nil => simp at h
  | cons x xs ih =>
      rw [List.dropWhile_cons] at h
      by_cases hx : p x = true
      · rw [if_pos hx] at h
        exact List.mem_cons_of_mem _ (ih h)
      · rw [Bool.not_eq_true] at hx
        rw [hx] at h
        simpa using h

theorem mem_of_head? {l : List Char} {c : Char} (h : l.head? = some c) : c ∈ l := by
  cases l with
  | nil => simp at h
  | cons x xs =>
      have : x = c := by
        injection h
      subst this
      exact List.mem_cons_self _ _

theorem exists_getLast_mem {l : List Char} (h : l ≠ []) :
    ∃ c, l.getLast? = some c ∧ c ∈ l :=
  ⟨l.getLast h, List.getLast?_eq_getLast l h, List.getLast_mem h⟩

/-- Trimming a string of the form whitespace-lead, non-whitespace core,
arbitrary tail: the lead disappears, the core survives, the tail keeps only
its part before the trailing whitespace. -/
theorem trimChars_shape (lead' core tl0 : List Char)
    (hlw : ∀ c ∈ lead', jsWs c = true)
    (hCne : core ≠ []) (hCws : ∀ c ∈ core, jsWs c = false) :
    trimChars (lead' ++ (core ++ tl0)) =
      core ++ (tl0.reverse.dropWhile jsWs).reverse := by
  unfold trimChars
  have hhead : ∀ c, (core ++ tl0).head? = some c → jsWs c = false := by
    cases core with
    | nil => exact absurd rfl hCne
    | cons x xs =>
        intro c hc
        rw [List.cons_append] at hc
        have hx : x = c := by
          injection hc
        subst hx
        exact hCws x (List.mem_cons_self _ _)
  rw [dropWhile_append_all lead' _ hlw hhead]
  rw [List.reverse_append]
  obtain ⟨cl, hcl1, hcl2⟩ := exists_getLast_mem hCne
  rw [dropWhile_append_head _ _ (by
    intro c hc
    rw [List.head?_reverse, hcl1] at hc
    have : cl = c := by
      injection hc
    subst this
    exact hCws cl hcl2)]
  rw [List.reverse_append, List.reverse_reverse]

/-- Evaluation of parseNumeric on a currency-formatted string: leading
comma/currency/whitespace symbols (no percent sign before the digits), an
optional minus sign, integer digits, an optional dot-and-fraction-digits
group, then trailing comma/currency/percent/whitespace symbols.  The result
is the embedded decimal value. -/
theorem parseNumeric_formatted (neg : Bool) (lead ip fp trail : List Char)
    (hlead : ∀ c ∈ lead, (currencyChar c || jsWs c) = true)
    (hip : ip ≠ []) (hipd : ∀ c ∈ ip, c.isDigit = true)
    (hfpd : ∀ c ∈ fp, c.isDigit = true)
    (htrail : ∀ c ∈ trail, (currencyChar c || jsWs c || decide (c = '%')) = true) :
    parseNumeric (.str (String.mk (lead ++ (if neg then ['-'] else []) ++ ip ++
      (if fp = [] then [] else '.' :: fp) ++ trail))) =
      .fin (ratOfParts neg ip fp) := by
  have hLne : (lead ++ (if neg then ['-'] else []) ++ ip ++
      (if fp = [] then [] else '.' :: fp) ++ trail) ≠ [] := by
    intro h
    rcases List.append_eq_nil.mp h with ⟨h1, -⟩
    rcases List.append_eq_nil.mp h1 with ⟨h2, -⟩
    rcases List.append_eq_nil.mp h2 with ⟨-, h3⟩
    exact hip h3
  have hsne : String.mk (lead ++ (if neg then ['-'] else []) ++ ip ++
      (if fp = [] then [] else '.' :: fp) ++ trail) ≠ "" := by
    intro h
    exact hLne (congrArg String.data h)
  rw [show parseNumeric (.str (String.mk (lead ++ (if neg then ['-'] else []) ++ ip ++
      (if fp = [] then [] else '.' :: fp) ++ trail))) =
    if String.mk (lead ++ (if neg then ['-'] else []) ++ ip ++
        (if fp = [] then [] else '.' :: fp) ++ trail) = "" then JsFloat.fin 0
    else
      match jsParseFloat (trimChars (((lead ++ (if neg then ['-'] else []) ++ ip ++
          (if fp = [] then [] else '.' :: fp) ++ trail)).filter
            (fun c => !currencyChar c))) with
      | some f => f
      | none => JsFloat.fin 0 from rfl]
  rw [if_neg hsne]
  have hflt : ((lead ++ (if neg then ['-'] else []) ++ ip ++
      (if fp = [] then [] else '.' :: fp) ++ trail)).filter (fun c => !currencyChar c) =
      (lead.filter (fun c => !currencyChar c)) ++
        (((if neg then ['-'] else []) ++ (ip ++ (if fp = [] then [] else '.' :: fp))) ++
          trail.filter (fun c => !currencyChar c)) := by
    simp only [List.filter_append, List.append_assoc]
    congr 1
    congr 1
    · cases neg with
      | false => rfl
      | true => rfl
    congr 1
    · exact List.filter_eq_self.mpr
        (fun c hc => by rw [digit_not_currency (hipd c hc)]; rfl)
    congr 1
    · by_cases hfp : fp = []
      · rw [if_pos hfp]
        rfl
      · rw [if_neg hfp]
        rw [List.filter_cons]
        rw [show ((!currencyChar '.') = true) from rfl]
        simp only [if_pos]
        rw [List.filter_eq_self.mpr
          (fun c hc => by rw [digit_not_currency (hfpd c hc)]; rfl)]
  rw [hflt]
  have hcore_ne : ((if neg then ['-'] else []) ++
      (ip ++ (if fp = [] then [] else '.' :: fp))) ≠ [] := by
    intro h
    rcases List.append_eq_nil.mp h with ⟨-, h1⟩
    rcases List.append_eq_nil.mp h1 with ⟨h2, -⟩
    exact hip h2
  have hcore_ws : ∀ c ∈ ((if neg then ['-'] else []) ++
      (ip ++ (if fp = [] then [] else '.' :: fp))), jsWs c = false := by
    intro c hc
    rcases List.mem_append.mp hc with hc | hc
    · cases neg with
      | false => simp at hc
      | true =>
          have : c = '-' := by simpa using hc
          subst this
          decide
    · rcases List.mem_append.mp hc with hc | hc
      · exact digit_not_ws (hipd c hc)
      · by_cases hfp : fp = []
        · rw [if_pos hfp] at hc
          simp at hc
        · rw [if_neg hfp] at hc
          rcases List.mem_cons.mp hc with hc | hc
          · subst hc
            decide
          · exact digit_not_ws (hfpd c hc)
  rw [trimChars_shape _ _ _
    (fun c hc => by
      rcases List.mem_filter.mp hc with ⟨hc1, hc2⟩
      have h0 := hlead c hc1
      rw [Bool.or_eq_true] at h0
      rcases h0 with h | h
      · rw [h] at hc2
        simp at hc2
      · exact h)
    hcore_ne hcore_ws]
  have htl : ∀ c ∈ (((trail.filter (fun c => !currencyChar c)).reverse.dropWhile
      jsWs).reverse), (jsWs c || decide (c = '%')) = true := by
    intro c hc
    rw [List.mem_reverse] at hc
    have hc1 : c ∈ (trail.filter (fun c => !currencyChar c)).reverse :=
      mem_of_dropWhile hc
    rw [List.mem_reverse] at hc1
    rcases List.mem_filter.mp hc1 with ⟨hc2, hc3⟩
    have h0 := htrail c hc2
    rw [Bool.or_eq_true, Bool.or_eq_true] at h0
    rcases h0 with (h | h) | h
    · rw [h] at hc3
      simp at hc3
    · rw [h]
      rfl
    · rw [h]
      simp
  rw [show ((if neg then ['-'] else []) ++
        (ip ++ (if fp = [] then [] else '.' :: fp))) ++
        (((trail.filter (fun c => !currencyChar c)).reverse.dropWhile jsWs).reverse) =
      (if neg then ['-'] else []) ++
        (ip ++ ((if fp = [] then [] else '.' :: fp) ++
          (((trail.filter (fun c => !currencyChar c)).reverse.dropWhile
            jsWs).reverse))) by simp [List.append_assoc]]
  rw [jsParseFloat_shape neg ip fp _ hip hipd hfpd (by
    intro c hc
    have hmem := mem_of_head? hc
    have h0 := htl c hmem
    rw [Bool.or_eq_true] at h0
    rcases h0 with h | h
    · refine ⟨ws_not_digit h, ?_⟩
      intro hd
      subst hd
      exact absurd h (by decide)
    · have : c = '%' := of_decide_eq_true h
      subst this
      exact ⟨by decide, by decide⟩)]

theorem takeWhile_nil_of_none {p : Char → Bool} (xs : List Char)
    (h : ∀ x ∈ xs, p x = false) : xs.takeWhile p = [] := by
  cases xs with
  | nil => rfl
  | cons x r =>
      rw [List.takeWhile_cons, h x (List.mem_cons_self _ _)]
      simp

theorem pfSign_snd_subset (l : List Char) : ∀ c ∈ (pfSign l).2, c ∈ l := by
  unfold pfSign
  split
  · rename_i r
    intro c hc
    exact List.mem_cons_of_mem _ hc
  · rename_i r
    intro c hc
    exact List.mem_cons_of_mem _ hc
  · intro c hc
    exact hc

theorem pfFrac_no_digit (l : List Char) (h : ∀ c ∈ l, c.isDigit = false) :
    pfFrac l = [] := by
  cases l with
  | nil => rfl
  | cons c r =>
      unfold pfFrac
      split
      · rename_i r' heq
        injection heq with h1 h2
        subst h2
        exact takeWhile_nil_of_none r
          (fun x hx => h x (List.mem_cons_of_mem _ hx))
      · rfl

theorem jsParseFloat_no_digit (l : List Char) (h : ∀ c ∈ l, c.isDigit = false)
    (hI : 'I' ∉ l) : jsParseFloat l = none := by
  have hsub1 : ∀ c ∈ l.dropWhile jsWs, c ∈ l := fun c hc => mem_of_dropWhile hc
  have hsub2 : ∀ c ∈ (pfSign (l.dropWhile jsWs)).2, c ∈ l :=
    fun c hc => hsub1 c (pfSign_snd_subset _ c hc)
  have hinf : (pfSign (l.dropWhile jsWs)).2.take 8 ≠ infinityLit := by
    intro hEq
    cases hrest : (pfSign (l.dropWhile jsWs)).2 with
    | nil =>
        rw [hrest] at hEq
        exact List.noConfusion hEq
    | cons c r =>
        rw [hrest, show (c :: r).take 8 = c :: r.take 7 from rfl] at hEq
        have hcI : c = 'I' := by
          injection hEq
        subst hcI
        exact hI (hsub2 'I' (by rw [hrest]; exact List.mem_cons_self _ _))
  have hip : (pfSign (l.dropWhile jsWs)).2.takeWhile Char.isDigit = [] :=
    takeWhile_nil_of_none _ (fun c hc => h c (hsub2 c hc))
  have hfp : pfFrac ((pfSign (l.dropWhile jsWs)).2.dropWhile Char.isDigit) = [] :=
    pfFrac_no_digit _ (fun c hc => h c (hsub2 c (mem_of_dropWhile hc)))
  rw [jsParseFloat_eq, if_neg hinf, hip, hfp]
  simp

theorem mem_of_trimChars_filter {s : String} {c : Char}
    (hc : c ∈ trimChars (s.data.filter (fun c => !currencyChar c))) :
    c ∈ s.data := by
  unfold trimChars at hc
  rw [List.mem_reverse] at hc
  have hc1 := mem_of_dropWhile hc
  rw [List.mem_reverse] at hc1
  have hc2 := mem_of_dropWhile hc1
  exact (List.mem_filter.mp hc2).1

theorem parseNumeric_no_digit (s : String)
    (h : ∀ c ∈ s.data, c.isDigit = false) (hI : 'I' ∉ s.data) :
    parseNumeric (.str s) = .fin 0 := by
  by_cases hs : s = ""
  · rw [show parseNumeric (.str s) = if s = "" then JsFloat.fin 0 else
      match jsParseFloat (trimChars (s.data.filter (fun c => !currencyChar c))) with
      | some f => f
      | none => JsFloat.fin 0 from rfl, if_pos hs]
  · rw [show parseNumeric (.str s) = if s = "" then JsFloat.fin 0 else
      match jsParseFloat (trimChars (s.data.filter (fun c => !currencyChar c))) with
      | some f => f
      | none => JsFloat.fin 0 from rfl, if_neg hs]
    rw [jsParseFloat_no_digit _
      (fun c hc => h c (mem_of_trimChars_filter hc))
      (fun hc => hI (mem_of_trimChars_filter hc))]

/-- Modelled from the spec: the symbol class of the claimed coercion regex,
comma, currency glyphs, percent sign and whitespace. -/
def specSymChar (c : Char) : Bool := currencyChar c || jsWs c || decide (c = '%')

/-- Modelled from the spec: whether a string matches
    the pattern of leading symbols, -?, digits, optional dot-digits group,
    trailing symbols, and if so the embedded decimal value. -/
def specEmbeddedValue (s : String) : Option ℚ :=
  let l1 := s.data.dropWhile specSymChar
  let neg := decide (l1.head? = some '-')
  let l2 := if l1.head? = some '-' then l1.tail else l1
  let ip := l2.takeWhile Char.isDigit
  let l3 := l2.dropWhile Char.isDigit
  match l3 with
  | '.' :: r =>
      let fp := r.takeWhile Char.isDigit
      let l4 := r.dropWhile Char.isDigit
      if ip ≠ [] ∧ fp ≠ [] ∧ l4.all specSymChar then some (ratOfParts neg ip fp)
      else none
  | _ => if ip ≠ [] ∧ l3.all specSymChar then some (ratOfParts neg ip []) else none

/-! ### Claims -/

/-- C2, counterexample: the string "%50" matches the claimed coercion regex
with embedded value 50, yet parseNumeric returns 0, because the percent sign
is not in the stripped character class and parseFloat("%50") is NaN. -/
theorem claim2_counterexample :
    specEmbeddedValue "%50" = some 50 ∧ parseNumeric (.str "%50") = .fin 0 ∧
      (50 : ℚ) ≠ 0 := by
  refine ⟨?_, rfl, by norm_num⟩
  have h1 : specEmbeddedValue "%50" = some (ratOfParts false ['5', '0'] []) := rfl
  rw [h1]
  unfold ratOfParts
  norm_num [show digitsToNat ['5', '0'] = 50 from by decide,
    show digitsToNat [] = 0 from rfl]

/-- C2 (amended): numeric coercion yields the embedded numeric value for
strings of the form leading comma/currency/whitespace symbols (percent not
allowed before the digits), -?\d+(\.\d+)?, trailing
comma/currency/percent/whitespace symbols; it yields exactly 0 for null,
undefined, the empty string, and any garbage string containing neither a
decimal digit nor the capital letter I of an Infinity literal; a cleaned
optionally signed Infinity literal coerces to the corresponding infinity,
since parseFloat returns it and isNaN(Infinity) is false. -/
theorem claim2_amended_coercion :
    (∀ (neg : Bool) (lead ip fp trail : List Char),
        (∀ c ∈ lead, (currencyChar c || jsWs c) = true) →
        ip ≠ [] → (∀ c ∈ ip, c.isDigit = true) → (∀ c ∈ fp, c.isDigit = true) →
        (∀ c ∈ trail, (currencyChar c || jsWs c || decide (c = '%')) = true) →
        parseNumeric (.str (String.mk (lead ++ (if neg then ['-'] else []) ++ ip ++
          (if fp = [] then [] else '.' :: fp) ++ trail))) =
          .fin (ratOfParts neg ip fp)) ∧
    parseNumeric .null = .fin 0 ∧ parseNumeric .undefined = .fin 0 ∧
    parseNumeric (.str "") = .fin 0 ∧
    (∀ s : String, (∀ c ∈ s.data, c.isDigit = false) → 'I' ∉ s.data →
      parseNumeric (.str s) = .fin 0) ∧
    parseNumeric (.str "Infinity") = .inf false ∧
    parseNumeric (.str "-Infinity") = .inf true := by
  refine ⟨?_, rfl, rfl, rfl, parseNumeric_no_digit, rfl, rfl⟩
  intro neg lead ip fp trail h1 h2 h3 h4 h5
  exact parseNumeric_formatted neg lead ip fp trail h1 h2 h3 h4 h5

/-- Witness for C2: the formatted string "₹12.5 %" coerces to 12.5 and the
digit-free, Infinity-free string "abc" coerces to 0. -/
theorem claim2_amended_coercion_witness :
    parseNumeric (.str (String.mk ['₹', '1', '2', '.', '5', ' ', '%'])) =
      .fin (25 / 2) ∧
      parseNumeric (.str "abc") = .fin 0 := by
  constructor
  · have h := claim2_amended_coercion.1 false ['₹'] ['1', '2'] ['5'] [' ', '%']
      (by decide) (by decide) (by decide) (by decide) (by decide)
    refine h.trans ?_
    refine congrArg JsFloat.fin ?_
    unfold ratOfParts
    norm_num [show digitsToNat ['1', '2'] = 12 from by decide,
      show digitsToNat ['5'] = 5 from by decide]
  · exact claim2_amended_coercion.2.2.2.2.1 "abc" (by decide) (by decide)

/-- C1: grouping produces exactly one summary per distinct derived key, the
summaries appear in first-seen key order (shown both for the WaterAnalytics
parameterMap and the FugitiveAnalytics aggregate map), and the counts over
all groups sum to the input length. -/
theorem claim1_grouping :
    (∀ waterData : List WaterRecord,
      (waterByParameter waterData).map (fun g => g.parameter) =
        firstSeen (waterData.map waterKey) ∧
      (firstSeen (waterData.map waterKey)).Nodup ∧
      ((waterByParameter waterData).map (fun g => g.count)).sum =
        waterData.length) ∧
    (∀ (field : FugitiveRecord → JsValue) (data : List FugitiveRecord),
      keysOf (fugitiveMap field data) =
        firstSeen (data.map (fun d => jsOr (field d) (.str "Unknown"))) ∧
      ((fugitiveMap field data).map (fun p => p.2.count)).sum = data.length) := by
  constructor
  · intro waterData
    refine ⟨?_, firstSeen_nodup _, ?_⟩
    · have hinv : ∀ p ∈ waterParameterMap waterData,
          (p.2 : WaterGroup).parameter = p.1 := by
        unfold waterParameterMap
        intro p hp
        exact groupFold_pair_inv (fun k g => g.parameter = k) waterKey
          (fun param => ⟨param, 0, 0, 0⟩)
          (fun item group =>
            { group with
              totalQuantity := group.totalQuantity + jsOrZero item.quantity
              totalValue := group.totalValue + jsOrZero item.value
              count := group.count + 1 })
          waterData []
          (fun q hq => absurd hq (List.not_mem_nil q)) (fun k => rfl)
          (fun r k g h => h) p hp
      have h1 : (waterByParameter waterData).map (fun g => g.parameter) =
          (waterParameterMap waterData).map (fun p => p.2.parameter) := by
        rw [waterByParameter, List.map_map]
        rfl
      have h2 : (waterParameterMap waterData).map (fun p => p.2.parameter) =
          (waterParameterMap waterData).map (fun p => p.1) :=
        List.map_congr_left (fun p hp => hinv p hp)
      rw [h1, h2]
      exact groupFold_keys_firstSeen waterKey _ _ waterData
    · have h1 : ((waterByParameter waterData).map (fun g => g.count)).sum =
          ((waterParameterMap waterData).map (fun p => p.2.count)).sum := by
        rw [waterByParameter, List.map_map]
        rfl
      rw [h1]
      unfold waterParameterMap
      rw [groupFold_measure_sum WaterGroup.count waterKey _ _ (fun _ => (1 : ℕ))
        (fun r g => rfl) (fun k => rfl) waterData []]
      simp [sum_map_one]
  · intro field data
    constructor
    · exact groupFold_keys_firstSeen _ _ _ data
    · unfold fugitiveMap
      rw [groupFold_measure_sum FugitiveAcc.count _ _ _ (fun _ => (1 : ℕ))
        (fun r g => rfl) (fun k => rfl) data []]
      simp [sum_map_one]

theorem scope3Foldl_mapSub : ∀ (data : List Scope3Record) (st : Scope3State),
    (data.foldl scope3Step st).mapSub =
      groupFold scope3SubKey (fun cat => ⟨cat, 0, 0, 0⟩) scope3Add data st.mapSub := by
  intro data
  induction data with
  | nil => intro st; rfl
  | cons d ds ih =>
      intro st
      rw [List.foldl_cons, ih]
      rfl

theorem scope3Foldl_totals_q : ∀ (data : List Scope3Record) (st : Scope3State),
    (data.foldl scope3Step st).totals.totalQuantity =
      st.totals.totalQuantity + (data.map (fun d => jsOrZero d.totalQuantity)).sum := by
  intro data
  induction data with
  | nil => intro st; simp
  | cons d ds ih =>
      intro st
      rw [List.foldl_cons, ih]
      show st.totals.totalQuantity + jsOrZero d.totalQuantity + _ = _
      rw [List.map_cons, List.sum_cons, add_assoc]

theorem scope3Foldl_totals_e : ∀ (data : List Scope3Record) (st : Scope3State),
    (data.foldl scope3Step st).totals.totalEFFuel =
      st.totals.totalEFFuel + (data.map (fun d => jsOrZero d.totalEFFuel)).sum := by
  intro data
  induction data with
  | nil => intro st; simp
  | cons d ds ih =>
      intro st
      rw [List.foldl_cons, ih]
      show st.totals.totalEFFuel + jsOrZero d.totalEFFuel + _ = _
      rw [List.map_cons, List.sum_cons, add_assoc]

theorem scope3Foldl_totals_v : ∀ (data : List Scope3Record) (st : Scope3State),
    (data.foldl scope3Step st).totals.totalValue =
      st.totals.totalValue + (data.map (fun d => jsOrZero d.totalValue)).sum := by
  intro data
  induction data with
  | nil => intro st; simp
  | cons d ds ih =>
      intro st
      rw [List.foldl_cons, ih]
      show st.totals.totalValue + jsOrZero d.totalValue + _ = _
      rw [List.map_cons, List.sum_cons, add_assoc]

/-- C7: the overview totals accumulated in the single analytics pass equal
the sum of the per-group totals over all groups, for each summed measure, in
Scope3Analytics and in WaterAnalytics. -/
theorem claim7_totals_consistency :
    (∀ data : List Scope3Record,
      (scope3Totals data).totalQuantity =
        ((scope3BySubCategory data).map (fun g => g.totalQuantity)).sum ∧
      (scope3Totals data).totalEFFuel =
        ((scope3BySubCategory data).map (fun g => g.totalEFFuel)).sum ∧
      (scope3Totals data).totalValue =
        ((scope3BySubCategory data).map (fun g => g.totalValue)).sum) ∧
    (∀ waterData : List WaterRecord,
      waterTotalQuantity waterData =
        ((waterByParameter waterData).map (fun g => g.totalQuantity)).sum ∧
      waterTotalValue waterData =
        ((waterByParameter waterData).map (fun g => g.totalValue)).sum) := by
  constructor
  · intro data
    have hsub : ((scope3BySubCategory data).map (fun g => g.totalQuantity)).sum =
        ((groupFold scope3SubKey (fun cat => ⟨cat, 0, 0, 0⟩) scope3Add data
          []).map (fun p => p.2.totalQuantity)).sum := by
      rw [scope3BySubCategory, scope3Pass, scope3Foldl_mapSub, List.map_map]
      rfl
    have hsube : ((scope3BySubCategory data).map (fun g => g.totalEFFuel)).sum =
        ((groupFold scope3SubKey (fun cat => ⟨cat, 0, 0, 0⟩) scope3Add data
          []).map (fun p => p.2.totalEFFuel)).sum := by
      rw [scope3BySubCategory, scope3Pass, scope3Foldl_mapSub, List.map_map]
      rfl
    have hsubv : ((scope3BySubCategory data).map (fun g => g.totalValue)).sum =
        ((groupFold scope3SubKey (fun cat => ⟨cat, 0, 0, 0⟩) scope3Add data
          []).map (fun p => p.2.totalValue)).sum := by
      rw [scope3BySubCategory, scope3Pass, scope3Foldl_mapSub, List.map_map]
      rfl
    refine ⟨?_, ?_, ?_⟩
    · rw [hsub, groupFold_measure_sum Scope3Group.totalQuantity scope3SubKey _
        scope3Add (fun d => jsOrZero d.totalQuantity) (fun r g => rfl)
        (fun k => rfl) data []]
      rw [scope3Totals, scope3Pass, scope3Foldl_totals_q]
      simp
    · rw [hsube, groupFold_measure_sum Scope3Group.totalEFFuel scope3SubKey _
        scope3Add (fun d => jsOrZero d.totalEFFuel) (fun r g => rfl)
        (fun k => rfl) data []]
      rw [scope3Totals, scope3Pass, scope3Foldl_totals_e]
      simp
    · rw [hsubv, groupFold_measure_sum Scope3Group.totalValue scope3SubKey _
        scope3Add (fun d => jsOrZero d.totalValue) (fun r g => rfl)
        (fun k => rfl) data []]
      rw [scope3Totals, scope3Pass, scope3Foldl_totals_v]
      simp
  · intro waterData
    constructor
    · have h1 : ((waterByParameter waterData).map (fun g => g.totalQuantity)).sum =
          ((waterParameterMap waterData).map (fun p => p.2.totalQuantity)).sum := by
        rw [waterByParameter, List.map_map]
        rfl
      rw [h1]
      unfold waterParameterMap
      rw [groupFold_measure_sum WaterGroup.totalQuantity waterKey _ _
        (fun item => jsOrZero item.quantity) (fun r g => rfl) (fun k => rfl)
        waterData []]
      rw [waterTotalQuantity, foldl_add_eq_sum]
      simp
    · have h1 : ((waterByParameter waterData).map (fun g => g.totalValue)).sum =
          ((waterParameterMap waterData).map (fun p => p.2.totalValue)).sum := by
        rw [waterByParameter, List.map_map]
        rfl
      rw [h1]
      unfold waterParameterMap
      rw [groupFold_measure_sum WaterGroup.totalValue waterKey _ _
        (fun item => jsOrZero item.value) (fun r g => rfl) (fun k => rfl)
        waterData []]
      rw [waterTotalValue, foldl_add_eq_sum]
      simp

/-- C3: the scan-for-match loader examines exactly the rows with index below
min(10, rowCount); it selects the first row there containing every required
header label, treats the rows after it as the data rows, and when no row in
the window matches it resolves to the error upload status (for a grid with
at least two rows, specifically the header-row-not-found error value). -/
theorem claim3_header_scan :
    ∀ rows : List (List JsValue),
      ((∀ j, j < min 10 rows.length →
          rowHasAllCols (mappingKeys scope3FieldMapping) (rows.getD j []) = false) →
        scope3UploadStatus rows = "error" ∧
        (2 ≤ rows.length →
          processScope3Upload rows =
            .error "Header row not found with expected columns")) ∧
      (∀ (j : ℕ) (hdr : List JsValue),
        findHeaderRow (mappingKeys scope3FieldMapping) rows = some (j, hdr) →
        j < min 10 rows.length ∧ rows.getD j [] = hdr ∧
        rowHasAllCols (mappingKeys scope3FieldMapping) hdr = true ∧
        (∀ t, t < j →
          rowHasAllCols (mappingKeys scope3FieldMapping) (rows.getD t []) = false) ∧
        (∀ recs, processScope3Upload rows = .ok recs →
          recs = ((rows.drop (j + 1)).filter rowNonBlank).map (scope3MapRow hdr))) := by
  intro rows
  constructor
  · intro hnone
    have hfind : findHeaderRow (mappingKeys scope3FieldMapping) rows = none :=
      (findHeaderRow_none_iff _ rows).mpr hnone
    by_cases h2 : rows.length < 2
    · constructor
      · unfold scope3UploadStatus processScope3Upload
        rw [if_pos h2]
      · intro hge
        omega
    · have hproc : processScope3Upload rows =
          .error "Header row not found with expected columns" := by
        unfold processScope3Upload
        rw [if_neg h2, hfind]
      constructor
      · unfold scope3UploadStatus
        rw [hproc]
      · intro _
        exact hproc
  · intro j hdr hfind
    obtain ⟨hj, hget, hmatch, hprev⟩ := findHeaderRow_some _ rows j hdr hfind
    refine ⟨hj, hget, hmatch, hprev, ?_⟩
    intro recs hok
    unfold processScope3Upload at hok
    by_cases h2 : rows.length < 2
    · rw [if_pos h2] at hok
      exact absurd hok (by simp)
    · rw [if_neg h2, hfind] at hok
      dsimp only at hok
      by_cases hz :
          (((rows.drop (j + 1)).filter rowNonBlank).map (scope3MapRow hdr)).length = 0
      · rw [if_pos hz] at hok
        exact absurd hok (by simp)
      · rw [if_neg hz] at hok
        exact (Except.ok.inj hok).symm

/-- C8: data rows in which every cell is null, undefined or the empty string
are removed by the blank-row filter; the loaded records are exactly the
mapped survivors, and when no data row survives the load resolves to the
no-valid-data error instead of an empty record list. -/
theorem claim8_blank_row_filter :
    ∀ (rows : List (List JsValue)) (j : ℕ) (hdr : List JsValue),
      findHeaderRow (mappingKeys scope3FieldMapping) rows = some (j, hdr) →
      2 ≤ rows.length →
      (((rows.drop (j + 1)).all (fun r => !rowNonBlank r)) = true →
        processScope3Upload rows = .error "No valid data found") ∧
      (∀ recs, processScope3Upload rows = .ok recs →
        recs = ((rows.drop (j + 1)).filter rowNonBlank).map (scope3MapRow hdr) ∧
        recs.length = ((rows.drop (j + 1)).filter rowNonBlank).length ∧
        recs ≠ []) := by
  intro rows j hdr hfind h2
  have h2' : ¬rows.length < 2 := by omega
  constructor
  · intro hblank
    have hfil : (rows.drop (j + 1)).filter rowNonBlank = [] := by
      rw [List.filter_eq_nil_iff]
      intro r hr
      have := (List.all_eq_true.mp hblank) r hr
      simp at this
      simp [this]
    unfold processScope3Upload
    rw [if_neg h2', hfind]
    dsimp only
    rw [hfil]
    rfl
  · intro recs hok
    unfold processScope3Upload at hok
    rw [if_neg h2', hfind] at hok
    dsimp only at hok
    by_cases hz :
        (((rows.drop (j + 1)).filter rowNonBlank).map (scope3MapRow hdr)).length = 0
    · rw [if_pos hz] at hok
      exact absurd hok (by simp)
    · rw [if_neg hz] at hok
      have heq := (Except.ok.inj hok).symm
      refine ⟨heq, ?_, ?_⟩
      · rw [heq, List.length_map]
      · intro hnil
        rw [heq] at hnil
        exact hz (by rw [hnil]; rfl)

/-- C10: a row qualifies as the header row only if it contains every key of
the module's whole fieldMapping dictionary, which for DiversityDataAnalytics
includes both serial-number spellings; a grid none of whose scanned rows
carries all mapped labels is rejected with the header-row-not-found error. -/
theorem claim10_full_mapping_required :
    (∀ row : List JsValue,
      rowHasAllCols (mappingKeys diversityFieldMapping) row = true ↔
        ∀ k ∈ mappingKeys diversityFieldMapping, JsValue.str k ∈ row) ∧
    ("Sr.No." ∈ mappingKeys diversityFieldMapping ∧
      "Sr No" ∈ mappingKeys diversityFieldMapping) ∧
    (∀ rows : List (List JsValue), 2 ≤ rows.length →
      (∀ j, j < min 10 rows.length →
        ∃ k ∈ mappingKeys diversityFieldMapping, JsValue.str k ∉ rows.getD j []) →
      processDiversityUpload rows =
        .error "Header row not found with required fields") := by
  have hcols : ∀ (keys : List String) (row : List JsValue),
      rowHasAllCols keys row = true ↔ ∀ k ∈ keys, JsValue.str k ∈ row := by
    intro keys row
    unfold rowHasAllCols rowIncludes
    rw [List.all_eq_true]
    constructor
    · intro h k hk
      have := h k hk
      exact List.elem_iff.mp this
    · intro h k hk
      exact List.elem_iff.mpr (h k hk)
  refine ⟨hcols _, ⟨by decide, by decide⟩, ?_⟩
  intro rows h2 hmiss
  have hnone : findHeaderRow (mappingKeys diversityFieldMapping) rows = none := by
    rw [findHeaderRow_none_iff]
    intro t ht
    obtain ⟨k, hk, hnk⟩ := hmiss t ht
    cases hc : rowHasAllCols (mappingKeys diversityFieldMapping) (rows.getD t []) with
    | false => rfl
    | true => exact absurd ((hcols _ _).mp hc k hk) hnk
  unfold processDiversityUpload
  rw [if_neg (by omega), hnone]

/-- A record of DiversityDataAnalytics whose dim1 cell was empty and which
carries five complaints. -/
def divRec0 : DiversityRecord :=
  ⟨.str "", .str "", .str "Jan", .str "2024", 0, 0, 5, 0, 0, .str "Y"⟩

/-- C4, counterexample: the complaintsByDim1 aggregation of
DiversityDataAnalytics drops a record whose dim1 is the empty string — no
group at all is produced, not an Unknown group — although the record carries
5 complaints, so such records are excluded rather than defaulted. -/
theorem claim4_counterexample :
    complaintsByDim1 [divRec0] = [] ∧ divRec0.totalComplaints = 5 ∧
      (5 : ℚ) ≠ 0 :=
  ⟨rfl, rfl, by norm_num⟩

/-- C4 (amended): in the aggregateBy grouping of ElectricityDataAnalytics a
missing or empty grouping field maps to the literal key Unknown, such records
are never dropped (counts sum to the input length) and all records deriving
the Unknown key accumulate into that single group; the complaintsByDim1
grouping of DiversityDataAnalytics, however, skips records whose dimension
field is missing or empty. -/
theorem claim4_amended_unknown_default :
    (∀ v : JsValue, v.truthy = false → jsOr v (.str "Unknown") = .str "Unknown") ∧
    (∀ (field : ElectricityRecord → JsValue) (data : List ElectricityRecord),
      ((aggregateBy field data).map (fun p => p.2.count)).sum = data.length ∧
      measureOf ElectricityGroup.count (.str "Unknown") (aggregateBy field data) =
        (data.filter (fun d =>
          jsOr (field d) (.str "Unknown") = .str "Unknown")).length) ∧
    (∀ (d : DiversityRecord) (data : List DiversityRecord),
      d.dim1.truthy = false →
      complaintsByDim1 (d :: data) = complaintsByDim1 data) := by
  refine ⟨?_, ?_, ?_⟩
  · intro v hv
    unfold jsOr
    rw [hv]
    simp
  · intro field data
    constructor
    · unfold aggregateBy
      rw [groupFold_measure_sum ElectricityGroup.count _ _ _ (fun _ => (1 : ℕ))
        (fun r g => rfl) (fun k => rfl) data []]
      simp [sum_map_one]
    · unfold aggregateBy
      rw [groupFold_measure_at ElectricityGroup.count _ _ _ (fun _ => (1 : ℕ))
        (fun r g => rfl) (fun k => rfl) (.str "Unknown") data []]
      simp [measureOf, getGroup, sum_map_one]
  · intro d data hd
    unfold complaintsByDim1
    rw [List.foldl_cons]
    simp [hd]

/-- FossilFuel record of type A with conversion factor 5. -/
def fossil1 : FossilFuelRecord := ⟨.str "A", .str "D", .str "P", 1, 5, 0⟩

/-- FossilFuel record of type B with conversion factor 3. -/
def fossil2 : FossilFuelRecord := ⟨.str "B", .str "D", .str "P", 1, 3, 0⟩

/-- C5: on two records of distinct types, byType of FossilFuelAnalytics
divides each group's conversion-factor sum by data.length = 2 instead of the
group's own record count 1, so type A gets avgConvFactor 5/2 although the
claimed group sum divided by group count is 5/1. -/
theorem claim5_group_average_bug :
    (fossilByType [fossil1, fossil2]).map (fun t => t.avgConvFactor) =
      [5 / 2, 3 / 2] ∧ (5 / 2 : ℚ) ≠ 5 / 1 := by
  constructor
  · simp +decide [fossilByType, fossilTypeMap, groupFold, updateGroup, jsOr,
      JsValue.truthy, jsOrZero_eq, fossil1, fossil2]
  · norm_num

/-- C6: the top-N views are the stable descending sort of the full group
collection truncated to N: length min(N, groupCount), a sub-permutation of
the untruncated groups, sorted descending by the chosen measure, and ties on
the measure keep their original insertion order (filtering the sorted list at
any fixed measure value returns those groups in input order).  Shown for
topContributors of Scope3Analytics (N = 5) and dim1Breakdown of
OpennessAnalytics (N = 20). -/
theorem claim6_topN :
    (∀ data : List Scope3Record,
      (scope3TopContributors data).length =
        min 5 (scope3BySubCategory data).length ∧
      (scope3TopContributors data).Subperm (scope3BySubCategory data) ∧
      List.Sorted (byDesc Scope3Group.totalValue) (scope3TopContributors data) ∧
      (∀ q : ℚ,
        (List.insertionSort (byDesc Scope3Group.totalValue)
            (scope3BySubCategory data)).filter
              (fun g => decide (g.totalValue = q)) =
          (scope3BySubCategory data).filter (fun g => decide (g.totalValue = q)))) ∧
    (∀ data : List OpennessRecord,
      (opennessDim1Breakdown data).length = min 20 (opennessDim1Map data).length ∧
      (opennessDim1Breakdown data).Subperm
        ((opennessDim1Map data).map (fun p => (⟨p.1, p.2⟩ : OpennessOut))) ∧
      List.Sorted (byDesc OpennessOut.value) (opennessDim1Breakdown data) ∧
      (∀ q : ℚ,
        (List.insertionSort (byDesc OpennessOut.value)
            ((opennessDim1Map data).map (fun p => (⟨p.1, p.2⟩ : OpennessOut)))).filter
              (fun g => decide (g.value = q)) =
          ((opennessDim1Map data).map (fun p => (⟨p.1, p.2⟩ : OpennessOut))).filter
            (fun g => decide (g.value = q)))) := by
  constructor
  · intro data
    refine ⟨?_, ?_, ?_, ?_⟩
    · rw [scope3TopContributors, List.length_take, List.length_insertionSort]
    · exact ((List.take_sublist 5 _).subperm).trans
        (List.perm_insertionSort _ _).subperm
    · exact List.Pairwise.sublist (List.take_sublist 5 _)
        (List.sorted_insertionSort _ _)
    · intro q
      exact filter_insertionSort Scope3Group.totalValue q _
  · intro data
    refine ⟨?_, ?_, ?_, ?_⟩
    · rw [opennessDim1Breakdown, List.length_take, List.length_insertionSort,
        List.length_map]
    · exact ((List.take_sublist 20 _).subperm).trans
        (List.perm_insertionSort _ _).subperm
    · exact List.Pairwise.sublist (List.take_sublist 20 _)
        (List.sorted_insertionSort _ _)
    · intro q
      exact filter_insertionSort OpennessOut.value q _

theorem jsOr_eq_iff (v u : JsValue) :
    jsOr v u = u ↔ (v.truthy = false ∨ v = u) := by
  unfold jsOr
  by_cases hv : v.truthy = true
  · rw [if_pos hv]
    constructor
    · intro h
      exact Or.inr h
    · intro h
      rcases h with h | h
      · rw [hv] at h
        simp at h
      · exact h
  · rw [Bool.not_eq_true] at hv
    rw [hv]
    simp [hv]

/-- C9: the grouping-key derivation collapses every falsy field value — the
empty string, the number 0, null, undefined — onto the same "Unknown" group
that a literal "Unknown" string value also lands in, so the Unknown group's
count is the number of records whose field is falsy or literally "Unknown";
shown for the parameterMap of WaterAnalytics and aggregateBy of
ElectricityDataAnalytics. -/
theorem claim9_falsy_collapse :
    (JsValue.truthy (.str "") = false ∧ JsValue.truthy (.num 0) = false ∧
      JsValue.truthy .null = false ∧ JsValue.truthy .undefined = false ∧
      jsOr (.str "Unknown") (.str "Unknown") = .str "Unknown") ∧
    (∀ v : JsValue, v.truthy = false → jsOr v (.str "Unknown") = .str "Unknown") ∧
    (∀ waterData : List WaterRecord,
      measureOf WaterGroup.count (.str "Unknown") (waterParameterMap waterData) =
        (waterData.filter (fun item =>
          item.parameter.truthy = false ∨ item.parameter = .str "Unknown")).length) ∧
    (∀ (field : ElectricityRecord → JsValue) (data : List ElectricityRecord),
      measureOf ElectricityGroup.count (.str "Unknown") (aggregateBy field data) =
        (data.filter (fun d =>
          (field d).truthy = false ∨ field d = .str "Unknown")).length) := by
  refine ⟨⟨by decide, by decide, rfl, rfl, rfl⟩, ?_, ?_, ?_⟩
  · intro v hv
    exact (jsOr_eq_iff v (.str "Unknown")).mpr (Or.inl hv)
  · intro waterData
    unfold waterParameterMap
    rw [groupFold_measure_at WaterGroup.count waterKey _ _ (fun _ => (1 : ℕ))
      (fun r g => rfl) (fun k => rfl) (.str "Unknown") waterData []]
    simp only [measureOf, getGroup, List.find?_nil, Option.map_none', Option.elim_none,
      Nat.zero_add, sum_map_one]
    congr 1
    apply List.filter_congr
    intro item _
    exact decide_eq_decide.mpr (by
      rw [show waterKey item = jsOr item.parameter (.str "Unknown") from rfl]
      exact jsOr_eq_iff item.parameter (.str "Unknown"))
  · intro field data
    unfold aggregateBy
    rw [groupFold_measure_at ElectricityGroup.count _ _ _ (fun _ => (1 : ℕ))
      (fun r g => rfl) (fun k => rfl) (.str "Unknown") data []]
    simp only [measureOf, getGroup, List.find?_nil, Option.map_none', Option.elim_none,
      Nat.zero_add, sum_map_one]
    congr 1
    apply List.filter_congr
    intro d _
    exact decide_eq_decide.mpr (jsOr_eq_iff (field d) (.str "Unknown"))

/-! ### Concrete instances -/

/-- A water record with a parameter value. -/
def water0 : WaterRecord := ⟨.str "pH", .str "S", .str "P", .str "Jan", 1, 2⟩

/-- A water record with an empty parameter cell. -/
def waterEmpty : WaterRecord := ⟨.str "", .str "S", .str "P", .str "Jan", 1, 2⟩

/-- A water record whose parameter is the literal string Unknown. -/
def waterUnknown : WaterRecord :=
  ⟨.str "Unknown", .str "S", .str "P", .str "Jan", 1, 2⟩

/-- An electricity record with an empty plant cell. -/
def elec0 : ElectricityRecord :=
  ⟨.str "", .str "D", .str "S", .str "T", .str "Jan", 1, 2⟩

/-- A Scope3 record in sub-category A. -/
def s3rec0 : Scope3Record := ⟨.str "A", .str "Y", .str "D", 1, 2, 3⟩

/-- An openness record with purchases and sales values. -/
def open0 : OpennessRecord := ⟨.str "d1", .str "d2", .str "Jan", .str "2024", 7, 8⟩

/-- The header labels of Scope3Analytics as a raw cell row. -/
def scope3HeaderCells : List JsValue :=
  (mappingKeys scope3FieldMapping).map (fun k => .str k)

/-- The grid of the spec's header-discovery scenario: the required labels
appear verbatim on row index 3 and nowhere earlier. -/
def scope3SpecGrid : List (List JsValue) :=
  [[.str "title"], [], [.str "meta"], scope3HeaderCells, [.str "x", .num 1]]

/-- A grid whose only data row is entirely blank. -/
def scope3BlankGrid : List (List JsValue) :=
  [scope3HeaderCells, [JsValue.null, .undefined, .str ""]]

/-- The Diversity header labels with the alternate spelling "Sr No" omitted. -/
def diversityHeader16 : List JsValue :=
  ((mappingKeys diversityFieldMapping).filter (fun k => decide (k ≠ "Sr No"))).map
    (fun k => .str k)

/-- A grid headed by the 16-label row plus one data row. -/
def diversityGrid16 : List (List JsValue) := [diversityHeader16, [.str "x"]]

/-- Witness for C1 at a one-record input. -/
theorem claim1_grouping_witness :
    ((waterByParameter [water0]).map (fun g => g.count)).sum = 1 :=
  (claim1_grouping.1 [water0]).2.2

/-- Witness for C3: on the spec scenario grid, row 3 is inside the scanned
window and is the selected header row. -/
theorem claim3_header_scan_witness :
    3 < min 10 scope3SpecGrid.length ∧
      scope3SpecGrid.getD 3 [] = scope3HeaderCells := by
  have h := (claim3_header_scan scope3SpecGrid).2 3 scope3HeaderCells (by decide)
  exact ⟨h.1, h.2.1⟩

/-- Witness for C4 at concrete falsy inputs. -/
theorem claim4_amended_unknown_default_witness :
    jsOr .null (.str "Unknown") = .str "Unknown" ∧
    ((aggregateBy (fun d => d.plant) [elec0]).map (fun p => p.2.count)).sum = 1 ∧
    complaintsByDim1 [divRec0] = complaintsByDim1 [] := by
  refine ⟨claim4_amended_unknown_default.1 .null rfl, ?_, ?_⟩
  · exact (claim4_amended_unknown_default.2.1 (fun d => d.plant) [elec0]).1
  · exact claim4_amended_unknown_default.2.2 divRec0 [] rfl

/-- Witness for C6 at one-record inputs and a concrete measure value. -/
theorem claim6_topN_witness :
    (scope3TopContributors [s3rec0]).length =
      min 5 (scope3BySubCategory [s3rec0]).length ∧
    (opennessDim1Breakdown [open0]).length =
      min 20 (opennessDim1Map [open0]).length ∧
    (List.insertionSort (byDesc Scope3Group.totalValue)
        (scope3BySubCategory [s3rec0])).filter (fun g => decide (g.totalValue = 0)) =
      (scope3BySubCategory [s3rec0]).filter (fun g => decide (g.totalValue = 0)) :=
  ⟨(claim6_topN.1 [s3rec0]).1, (claim6_topN.2 [open0]).1,
    (claim6_topN.1 [s3rec0]).2.2.2 0⟩

/-- Witness for C7 at one-record inputs. -/
theorem claim7_totals_consistency_witness :
    (scope3Totals [s3rec0]).totalValue =
      ((scope3BySubCategory [s3rec0]).map (fun g => g.totalValue)).sum ∧
    waterTotalQuantity [water0] =
      ((waterByParameter [water0]).map (fun g => g.totalQuantity)).sum :=
  ⟨(claim7_totals_consistency.1 [s3rec0]).2.2,
    (claim7_totals_consistency.2 [water0]).1⟩

/-- Witness for C8: the blank-only grid resolves to the no-valid-data
error. -/
theorem claim8_blank_row_filter_witness :
    processScope3Upload scope3BlankGrid = .error "No valid data found" :=
  (claim8_blank_row_filter scope3BlankGrid 0 scope3HeaderCells (by decide)
    (by decide)).1 (by decide)

/-- Witness for C9 at falsy and literal-Unknown parameters. -/
theorem claim9_falsy_collapse_witness :
    jsOr (.num 0) (.str "Unknown") = .str "Unknown" ∧
    measureOf WaterGroup.count (.str "Unknown")
        (waterParameterMap [waterEmpty, waterUnknown]) =
      ([waterEmpty, waterUnknown].filter (fun item =>
        item.parameter.truthy = false ∨ item.parameter = .str "Unknown")).length :=
  ⟨claim9_falsy_collapse.2.1 (.num 0) rfl,
    claim9_falsy_collapse.2.2.1 [waterEmpty, waterUnknown]⟩

/-- Witness for C10: the 16-label grid is rejected with the
header-row-not-found error. -/
theorem claim10_full_mapping_required_witness :
    processDiversityUpload diversityGrid16 =
      .error "Header row not found with required fields" :=
  claim10_full_mapping_required.2.2 diversityGrid16 (by decide) (by decide)
